import Mathlib

/-!
Verification of the mobile-shopping query pipeline.

Shallow embedding of the repository's query-understanding core:
`QueryProcessor` (src/src/services/query_processor.py),
`LLMClient` (src/src/services/llm_client.py),
`VectorClient` (src/src/services/vector_client.py) and
`APIErrorHandler` (src/src/utils/error_handler.py).
External services (the Gemini oracle, the Pinecone index, the SQLite
store) are modelled as explicit function parameters; machine calls that
can raise are modelled with `Except`/`Option`.
-/

set_option maxRecDepth 8000

namespace MobileShop

/-- Python's `str.lower()`, modelled character-wise (ASCII case folding,
which covers the catalog vocabulary). Defined over the character list so
that concrete instances reduce inside the kernel. -/
def pyLower (s : String) : String := String.mk (s.data.map Char.toLower)

/-! ## Constraints and `QueryProcessor._merge_filters`

A constraint is the dict `{"column": .., "operator": .., "value": ..}`
produced by the intent extractor and by the sidebar-filter translation.
Values are strings or numbers in the source; we model that sum.
-/

/-- A constraint value: the source stores strings (company, model,
processor) or numbers (price/camera/battery bounds). -/
inductive CVal where
  | s (v : String)
  | i (v : Int)
deriving DecidableEq, Repr

/-- One constraint dict `{"column", "operator", "value"}`. -/
structure Constraint where
  column : String
  operator : String
  value : CVal
deriving DecidableEq, Repr

/-- The merge key used by `_merge_filters`: the (column, operator) pair. -/
def Constraint.key (c : Constraint) : String × String := (c.column, c.operator)

/-- `c.get("column") == col and c.get("operator") == op` from the merge loop. -/
def Constraint.keyMatches (c : Constraint) (col op : String) : Bool :=
  c.column == col && c.operator == op

/-- The sidebar filter dict: recognized keys `company`,
`price_min/max`, `camera_min/max`, `battery_min/max`; a `None` value
means no constraint on that dimension. -/
structure Filters where
  company : Option String
  price_min : Option Int
  price_max : Option Int
  camera_min : Option Int
  camera_max : Option Int
  battery_min : Option Int
  battery_max : Option Int

/-- One optional numeric sidebar bound as a (possibly empty) constraint list. -/
def optBound (col op : String) : Option Int → List Constraint
  | some v => [⟨col, op, .i v⟩]
  | none => []

/-- `filter_constraints` as built by `_merge_filters`: company first
(value lower-cased), then min/max bounds for price, camera, battery,
in source order. -/
def filterConstraints (f : Filters) : List Constraint :=
  (match f.company with
   | some comp => [⟨"Company Name", "==", .s (pyLower comp)⟩]
   | none => []) ++
  optBound "Launched Price (INR)" ">=" f.price_min ++
  optBound "Launched Price (INR)" "<=" f.price_max ++
  optBound "Back Camera (MP)" ">=" f.camera_min ++
  optBound "Back Camera (MP)" "<=" f.camera_max ++
  optBound "Battery Capacity (mAh)" ">=" f.battery_min ++
  optBound "Battery Capacity (mAh)" "<=" f.battery_max

/-- The inner loop of `_merge_filters`: replace the first existing
constraint with the same (column, operator) by `fc`, else append `fc`. -/
def replaceFirstOrAppend (cs : List Constraint) (fc : Constraint) : List Constraint :=
  match cs with
  | [] => [fc]
  | c :: rest =>
    if c.keyMatches fc.column fc.operator then fc :: rest
    else c :: replaceFirstOrAppend rest fc

/-- `QueryProcessor._merge_filters`, acting on the intent's constraint
list (the source mutates `intent["constraints"]` in place; we return the
new list). When no sidebar filter is set the source returns early and
the list is untouched. -/
def mergeFilters (cs : List Constraint) (f : Filters) : List Constraint :=
  let fcs := filterConstraints f
  if fcs.isEmpty then cs
  else fcs.foldl replaceFirstOrAppend cs

/-! ## `QueryProcessor._apply_corrections`

The correction step walks the extracted company mentions, then the
extracted model mentions, querying the Semantic Matcher for each; it
accumulates a `original_lower -> corrected` company dict, a correction
record list, and the rewritten user-facing query text. The matcher
(`VectorClient.find_similar`) is passed in as a function parameter.
-/

/-- Python truthiness of `find_similar`'s optional-string result
(`if match:`): `None` and the empty string are falsy. -/
def isTruthyStr : Option String → Bool
  | some s => !(s == "")
  | none => false

/-- Substring occurrence over character lists. -/
def containsSub (needle : List Char) : List Char → Bool
  | [] => needle.isEmpty
  | c :: cs => needle.isPrefixOf (c :: cs) || containsSub needle cs

/-- `needle in haystack` on Python strings: substring containment. -/
def pyIn (needle hay : String) : Bool := containsSub needle.data hay.data

/-- Case-insensitive literal prefix test, the matching primitive of
`re.sub(re.escape(pat), ., ., flags=re.IGNORECASE)`. -/
def ciPrefix : List Char → List Char → Bool
  | [], _ => true
  | _ :: _, [] => false
  | p :: ps, c :: cs => (p.toLower == c.toLower) && ciPrefix ps cs

/-- `re.sub` with an empty pattern: the replacement is inserted at every
position, including the end. -/
def interleaveRepl (repl : List Char) : List Char → List Char
  | [] => repl
  | c :: cs => repl ++ c :: interleaveRepl repl cs

/-- Left-to-right, non-overlapping, case-insensitive replace-all over a
character list, for a non-empty literal pattern `p :: ps`; a replacement
is never rescanned (`re.sub` semantics). -/
def replaceCICore (p : Char) (ps : List Char) (repl : List Char) : List Char → List Char
  | [] => []
  | c :: cs =>
    if ciPrefix (p :: ps) (c :: cs) then repl ++ replaceCICore p ps repl (cs.drop ps.length)
    else c :: replaceCICore p ps repl cs
termination_by s => s.length
decreasing_by
  · simp only [List.length_drop, List.length_cons]
    omega
  · simp

/-- `re.sub(re.escape(pat), repl, s, flags=re.IGNORECASE)`. -/
def reSubCI (pat repl s : String) : String :=
  match pat.data with
  | [] => ⟨interleaveRepl repl.data s.data⟩
  | p :: ps => ⟨replaceCICore p ps repl.data s.data⟩

/-- The extracted entity mentions `{"companies": [...], "models": [...]}`. -/
structure Entities where
  companies : List String
  models : List String
deriving DecidableEq, Repr

/-- A correction record; the source formats it as the string
`"Company: ORIG -> MATCH"` / `"Model: ORIG -> MATCH"`, so the record is
exactly the (kind, original, corrected) triple. -/
inductive Correction where
  | company (orig corrected : String)
  | model (orig corrected : String)
deriving DecidableEq, Repr

def Correction.orig : Correction → String
  | .company o _ => o
  | .model o _ => o

def Correction.corrected : Correction → String
  | .company _ c => c
  | .model _ c => c

/-- Insertion-ordered dict update: `m[k] = v` keeps an existing key at
its position and otherwise appends. -/
def dictInsert (m : List (String × String)) (k v : String) : List (String × String) :=
  if m.any fun kv => kv.1 == k then
    m.map fun kv => if kv.1 == k then (k, v) else kv
  else m ++ [(k, v)]

/-- `QueryProcessor._detect_model_company`: first company whose raw
(lower-cased) key or corrected name occurs in the model mention;
otherwise the sole resolved company, if exactly one. -/
def detectModelCompany (model : String) (companyMap : List (String × String)) :
    Option String :=
  let modelLower := pyLower model
  match companyMap.find? fun kv => pyIn kv.1 modelLower || pyIn (pyLower kv.2) modelLower with
  | some kv => some kv.2
  | none =>
    match companyMap with
    | [kv] => some kv.2
    | _ => none

/-- The running state of `_apply_corrections`. -/
structure CorrectionState where
  companyMap : List (String × String)
  corrections : List Correction
  correctedQuery : String

/-- One iteration of the company-correction loop. -/
def correctCompanyStep (findC : String → Option String)
    (st : CorrectionState) (company : String) : CorrectionState :=
  let m := findC company
  if isTruthyStr m then
    let mv := m.getD ""
    let st := { st with companyMap := dictInsert st.companyMap (pyLower company) mv }
    if pyLower mv == pyLower company then st
    else
      { st with
        corrections := st.corrections ++ [.company company mv]
        correctedQuery := reSubCI company mv st.correctedQuery }
  else st

/-- One iteration of the model-correction loop: the matcher is called
with the detected company context. -/
def correctModelStep (findM : String → Option String → Option String)
    (st : CorrectionState) (model : String) : CorrectionState :=
  let modelCompany := detectModelCompany model st.companyMap
  let m := findM model modelCompany
  if isTruthyStr m && !(pyLower (m.getD "") == pyLower model) then
    { st with
      corrections := st.corrections ++ [.model model (m.getD "")]
      correctedQuery := reSubCI model (m.getD "") st.correctedQuery }
  else st

/-- `QueryProcessor._apply_corrections`: companies first, then models. -/
def applyCorrections (query : String) (entities : Entities)
    (findC : String → Option String)
    (findM : String → Option String → Option String) : CorrectionState :=
  let st0 : CorrectionState := ⟨[], [], query⟩
  let st1 := entities.companies.foldl (correctCompanyStep findC) st0
  entities.models.foldl (correctModelStep findM) st1

/-! ## `VectorClient.find_similar`

The Semantic Matcher. The embedding service and the nearest-neighbor
index are external; we pass them as functions. Similarity scores are
modelled as rationals (the code only ever compares them). The function
is total by construction: every failure path is an explicit `none`.
-/

/-- One Pinecone match: a score plus the metadata's optional
`original_name` (`matches[0]["metadata"].get("original_name")`). -/
structure VCMatch where
  score : ℚ
  originalName : Option String

/-- The metadata filter dict built by `find_similar`. -/
structure VCFilter where
  type : Option String
  company : Option String

/-- `find_similar`'s filter construction: `type` is set when the type
filter is truthy; `company` (lower-cased) only when the company filter
is truthy and the type filter equals "model". -/
def buildFilterDict (typeFilter companyFilter : Option String) : VCFilter :=
  ⟨if isTruthyStr typeFilter then typeFilter else none,
   if isTruthyStr companyFilter && (typeFilter == some "model") then
     some (pyLower (companyFilter.getD "")) else none⟩

/-- `filter_dict if filter_dict else None`: an empty dict is passed as
`None` to the index. -/
def vcQueryFilter (typeFilter companyFilter : Option String) : Option VCFilter :=
  let fd := buildFilterDict typeFilter companyFilter
  if fd.type.isSome || fd.company.isSome then some fd else none

/-- The matcher's default similarity threshold. -/
def defaultThreshold : ℚ := 2 / 5

/-- `VectorClient.find_similar`: embed the query, issue a top-1 index
query under the constructed metadata filter, and return the top match's
stored name exactly when its score strictly exceeds the threshold. -/
def findSimilar (query : String) (typeFilter companyFilter : Option String)
    (threshold : ℚ) (embed : String → Option (List ℚ))
    (indexQuery : List ℚ → Option VCFilter → List VCMatch) : Option String :=
  if query == "" then none
  else
    match embed query with
    | none => none
    | some emb =>
      if emb.isEmpty then none
      else
        match indexQuery emb (vcQueryFilter typeFilter companyFilter) with
        | [] => none
        | top :: _ => if threshold < top.score then top.originalName else none

/-! ## `APIErrorHandler` (src/src/utils/error_handler.py)

`handle_with_retry` wraps one oracle request. We model the wrapped
request as a function from the attempt index to that call's outcome, so
the embedding can speak about how many invocations were made. Retry-After
headers are modelled as numeric values (the source converts the header
string with `int(...)`); sleeps are recorded instead of performed.
-/

/-- The source's `ErrorType` enum. -/
inductive ErrorType where
  | rateLimit
  | apiError
  | networkError
  | timeoutKind
  | invalidResponse
  | unknown
deriving DecidableEq, Repr

/-- An HTTP response as `classify_error`/`handle_with_retry` read it:
status code and optional numeric Retry-After header. -/
structure HttpResp where
  status : Nat
  retryAfter : Option Nat
deriving DecidableEq, Repr

/-- The `requests` exception taxonomy the handler distinguishes:
`HTTPError` (carrying its optional response), `ConnectionError`,
`Timeout`, any other `RequestException`, and any other `Exception`.
The string is `str(exception)`. -/
inductive ReqExc where
  | httpError (response : Option HttpResp) (msg : String)
  | connectionError (msg : String)
  | timeoutExc (msg : String)
  | requestException (msg : String)
  | otherExc (msg : String)
deriving DecidableEq, Repr

/-- `str(exception)`. -/
def excMsg : ReqExc → String
  | .httpError _ m => m
  | .connectionError m => m
  | .timeoutExc m => m
  | .requestException m => m
  | .otherExc m => m

/-- The fixed non-429 HTTP status messages of `classify_error`. -/
def classifyHttpStatus (status : Nat) : Option (ErrorType × String) :=
  if status == 400 then
    some (.apiError, "⚠️ **Invalid Request**\n\nThe request couldn't be processed. Please try rephrasing your question or check your query.")
  else if status == 401 then
    some (.apiError, "🔐 **Authentication Error**\n\nThere's an issue with API authentication. Please check your API key configuration.")
  else if status == 403 then
    some (.apiError, "🚫 **Access Denied**\n\nAccess to the API is restricted. Please check your API permissions.")
  else if status == 500 then
    some (.apiError, "🔧 **Service Temporarily Unavailable**\n\nThe AI service is experiencing issues. Please try again in a few moments.")
  else if status == 503 then
    some (.apiError, "⏸️ **Service Overloaded**\n\nThe service is currently overloaded. Please wait a moment and try again.")
  else none

/-- The tail of `classify_error` after the response-based checks:
isinstance tests, then substring heuristics on `str(exception).lower()`,
then the default. -/
def classifyRest (exc : Option ReqExc) (errorStr : String) : ErrorType × String :=
  match exc with
  | some (.connectionError _) =>
    (.networkError, "🌐 **Connection Error**\n\nCouldn't connect to the AI service. Please check your internet connection and try again.")
  | some (.timeoutExc _) =>
    (.timeoutKind, "⏱️ **Request Timeout**\n\nThe request took too long to complete. Please try again with a simpler query.")
  | _ =>
    if pyIn "429" errorStr || pyIn "rate limit" errorStr || pyIn "quota" errorStr then
      (.rateLimit, "⏳ **Rate Limit Reached**\n\nI'm processing too many requests. Please wait about 60 seconds and try again.\n\n💡 **Tip:** Free tier has rate limits. Wait a minute between queries for best results.")
    else
      (.unknown, "😔 **Something Went Wrong**\n\nI encountered an unexpected error. Please try again in a moment, or rephrase your question.\n\nIf this persists, the service might be temporarily unavailable.")

/-- `APIErrorHandler.classify_error`. A 429 response wins; then the
fixed status table; then exception-type and message heuristics. -/
def classifyError (exc : Option ReqExc) (resp : Option HttpResp) : ErrorType × String :=
  let errorStr := pyLower (match exc with | some e => excMsg e | none => "None")
  match resp with
  | some r =>
    if r.status == 429 then
      (.rateLimit,
        "⏳ **Rate Limit Reached**\n\nI'm processing too many requests right now. Please wait about "
          ++ (r.retryAfter.map toString).getD "60"
          ++ " seconds and try again.\n\n💡 **Tip:** The free tier has rate limits. Try waiting a minute between queries, or consider upgrading your API plan.")
    else
      match classifyHttpStatus r.status with
      | some res => res
      | none => classifyRest exc errorStr
  | none => classifyRest exc errorStr

/-- The error record `handle_with_retry` returns: `type`, `message`,
and (only on the exhausted-429 path) `retry_after`. -/
structure ErrorInfo where
  etype : ErrorType
  message : String
  retryAfter : Option Nat
deriving DecidableEq, Repr

/-- Outcome of one invocation of the wrapped request. -/
inductive ReqOutcome (α : Type) where
  | ok (v : α)
  | exc (e : ReqExc)

/-- What `handle_with_retry` produces, plus the observables we reason
about: how many times the wrapped request ran and which sleeps occurred. -/
structure RetryResult (α : Type) where
  result : Option α
  error : Option ErrorInfo
  numCalls : Nat
  sleeps : List Nat

/-- The loop of `handle_with_retry`: `attempt` is the current index,
`remaining` the attempts left of `range(max_retries + 1)`; `sleeps`
accumulates performed sleeps, `lastExc`/`lastResp` mirror the source's
`last_exception`/`last_response`. -/
def handleWithRetryGo {α : Type} (calls : Nat → ReqOutcome α)
    (maxRetries retryDelay backoffFactor : Nat) (retryOnRateLimit : Bool) :
    Nat → Nat → List Nat → Option ReqExc → Option HttpResp → RetryResult α
  | attempt, 0, sleeps, lastExc, lastResp =>
    -- the fall-through after the loop ("if we exhausted retries")
    let tm := classifyError lastExc lastResp
    ⟨none, some ⟨tm.1, tm.2, none⟩, attempt, sleeps⟩
  | attempt, rem + 1, sleeps, _, _ =>
    match calls attempt with
    | .ok v => ⟨some v, none, attempt + 1, sleeps⟩
    | .exc e =>
      match e with
      | .httpError resp _ =>
        match resp with
        | some r =>
          if r.status == 429 then
            if !retryOnRateLimit || attempt ≥ maxRetries then
              let tm := classifyError (some e) (some r)
              ⟨none, some ⟨tm.1, tm.2, some (r.retryAfter.getD 60)⟩, attempt + 1, sleeps⟩
            else
              let ra := r.retryAfter.getD (retryDelay * backoffFactor ^ attempt)
              handleWithRetryGo calls maxRetries retryDelay backoffFactor retryOnRateLimit
                (attempt + 1) rem (sleeps ++ [ra]) (some e) (some r)
          else
            let tm := classifyError (some e) (some r)
            ⟨none, some ⟨tm.1, tm.2, none⟩, attempt + 1, sleeps⟩
        | none =>
          let tm := classifyError (some e) none
          ⟨none, some ⟨tm.1, tm.2, none⟩, attempt + 1, sleeps⟩
      | .connectionError m =>
        if attempt < maxRetries then
          handleWithRetryGo calls maxRetries retryDelay backoffFactor retryOnRateLimit
            (attempt + 1) rem (sleeps ++ [retryDelay * backoffFactor ^ attempt])
            (some (.connectionError m)) none
        else
          let tm := classifyError (some (.connectionError m)) none
          ⟨none, some ⟨tm.1, tm.2, none⟩, attempt + 1, sleeps⟩
      | .timeoutExc m =>
        if attempt < maxRetries then
          handleWithRetryGo calls maxRetries retryDelay backoffFactor retryOnRateLimit
            (attempt + 1) rem (sleeps ++ [retryDelay * backoffFactor ^ attempt])
            (some (.timeoutExc m)) none
        else
          let tm := classifyError (some (.timeoutExc m)) none
          ⟨none, some ⟨tm.1, tm.2, none⟩, attempt + 1, sleeps⟩
      | .requestException m =>
        if attempt < maxRetries then
          handleWithRetryGo calls maxRetries retryDelay backoffFactor retryOnRateLimit
            (attempt + 1) rem (sleeps ++ [retryDelay * backoffFactor ^ attempt])
            (some (.requestException m)) none
        else
          let tm := classifyError (some (.requestException m)) none
          ⟨none, some ⟨tm.1, tm.2, none⟩, attempt + 1, sleeps⟩
      | .otherExc m =>
        let tm := classifyError (some (.otherExc m)) none
        ⟨none, some ⟨tm.1, tm.2, none⟩, attempt + 1, sleeps⟩

/-- `APIErrorHandler.handle_with_retry`. -/
def handleWithRetry {α : Type} (calls : Nat → ReqOutcome α)
    (maxRetries retryDelay backoffFactor : Nat) (retryOnRateLimit : Bool) : RetryResult α :=
  handleWithRetryGo calls maxRetries retryDelay backoffFactor retryOnRateLimit
    0 (maxRetries + 1) [] none none

/-- Exceptions after which the handler may retry: a 429 `HTTPError` or
the `RequestException` family caught by the network branch. -/
def retryableExc : ReqExc → Bool
  | .httpError (some r) _ => r.status == 429
  | .httpError none _ => false
  | .connectionError _ => true
  | .timeoutExc _ => true
  | .requestException _ => true
  | .otherExc _ => false

/-- Whether the network-branch (exponential backoff) family caught it. -/
def networkFamilyExc : ReqExc → Bool
  | .connectionError _ => true
  | .timeoutExc _ => true
  | .requestException _ => true
  | _ => false

/-! ## `LLMClient.summarize` and `_generate_buy_links`

A catalog row carries many columns; the Summarizer reads exactly
`Company Name`, `Model Name` and `Launched Price (INR)` (and
deduplicates on `Model Name` alone), so the embedding keeps those three.
Prices in the catalog are integral.
-/

structure Row where
  company : String
  model : String
  price : Int
deriving DecidableEq, Repr

/-- `df.drop_duplicates(subset=["Model Name"], keep="first")`: keep a
row iff its model name has not occurred before; `seen` carries the model
names already kept. -/
def dedupByModelGo (seen : List String) : List Row → List Row
  | [] => []
  | r :: rest =>
    if seen.contains r.model then dedupByModelGo seen rest
    else r :: dedupByModelGo (r.model :: seen) rest

def dedupByModel (rows : List Row) : List Row := dedupByModelGo [] rows

/-- Python `str.strip()` whitespace set (ASCII). -/
def isPyWS (c : Char) : Bool :=
  c == ' ' || c == '\t' || c == '\n' || c == '\r' || c == '\x0b' || c == '\x0c'

/-- Python `str.strip()`. -/
def pyStrip (s : String) : String :=
  ⟨((s.data.dropWhile isPyWS).reverse.dropWhile isPyWS).reverse⟩

/-- Characters `urllib.parse.quote` leaves unencoded: the unreserved
set plus the default `safe="/"`. -/
def quoteSafe (c : Char) : Bool :=
  c.isAlpha || c.isDigit || c == '_' || c == '.' || c == '-' || c == '~' || c == '/'

def toHexDigit (n : Nat) : Char :=
  if n < 10 then Char.ofNat (48 + n) else Char.ofNat (65 + n - 10)

def percentEncodeByte (b : Nat) : List Char :=
  ['%', toHexDigit (b / 16), toHexDigit (b % 16)]

/-- UTF-8 bytes of one character (as `quote` encodes non-safe text). -/
def utf8Bytes (c : Char) : List Nat :=
  let n := c.toNat
  if n < 0x80 then [n]
  else if n < 0x800 then [0xC0 + n / 0x40, 0x80 + n % 0x40]
  else if n < 0x10000 then
    [0xE0 + n / 0x1000, 0x80 + (n / 0x40) % 0x40, 0x80 + n % 0x40]
  else
    [0xF0 + n / 0x40000, 0x80 + (n / 0x1000) % 0x40, 0x80 + (n / 0x40) % 0x40, 0x80 + n % 0x40]

def quoteChar (c : Char) : List Char :=
  if quoteSafe c then [c] else ((utf8Bytes c).map percentEncodeByte).flatten

/-- `urllib.parse.quote`. -/
def urlQuote (s : String) : String := ⟨(s.data.map quoteChar).flatten⟩

/-- Thousands grouping of `"{price:,.0f}"` over a digit list given in
reverse order of significance handling. -/
def insertCommas (ds : List Char) : List Char :=
  ((ds.reverse.enum.map fun ic =>
    if ic.1 % 3 == 0 && ic.1 != 0 then [',', ic.2] else [ic.2]).flatten).reverse

/-- Python `f"{n:,.0f}"` for an integral value. -/
def pyFormatComma (n : Int) : String :=
  let grouped : String := ⟨insertCommas (toString n.natAbs).data⟩
  if n < 0 then "-" ++ grouped else grouped

/-- One row's section of the buy-links text, as the loop body of
`_generate_buy_links` appends it; the empty string for a skipped
(empty-model) row. -/
def buyLinkEntry (row : Row) : String :=
  if row.model == "" then ""
  else
    let encoded := urlQuote (pyStrip (row.company ++ " " ++ row.model))
    let amazon := "https://www.amazon.in/s?k=" ++ encoded
    let flipkart := "https://www.flipkart.com/search?q=" ++ encoded
    "### " ++ row.company ++ " " ++ row.model ++ "\n" ++
    "**₹" ++ pyFormatComma row.price ++ "** | [🛒 Amazon](" ++ amazon ++
    ") | [🛒 Flipkart](" ++ flipkart ++ ")\n\n"

def buyHeader : String := "\n\n---\n\n## 🛒 Ready to Buy?\n\n"

def buyFooter : String :=
  "*Prices may vary. Links open search results on respective platforms.*\n"

/-- `LLMClient._generate_buy_links`: header, one appended section per
row (skipping rows whose model name is falsy), footer. -/
def generateBuyLinks (rows : List Row) : String :=
  (rows.foldl (fun acc row => acc ++ buyLinkEntry row) buyHeader) ++ buyFooter

/-- Modelled from the spec (§4.5, claim C9's reading): links built by
URL-encoding the string `"{company} {model}"` verbatim for each
serialized row — no stripping, no empty-model skip. Used only to compare
the claim's wording with the code. -/
def claimedBuyLinks (rows : List Row) : String :=
  (rows.foldl (fun acc row =>
    let encoded := urlQuote (row.company ++ " " ++ row.model)
    let amazon := "https://www.amazon.in/s?k=" ++ encoded
    let flipkart := "https://www.flipkart.com/search?q=" ++ encoded
    acc ++ "### " ++ row.company ++ " " ++ row.model ++ "\n" ++
    "**₹" ++ pyFormatComma row.price ++ "** | [🛒 Amazon](" ++ amazon ++
    ") | [🛒 Flipkart](" ++ flipkart ++ ")\n\n") buyHeader) ++ buyFooter

/-- Outcome of the Summarizer's oracle round-trip (`_post` plus
`_extract_text`): transport error, malformed reply, or the narrative. -/
inductive PostResult where
  | err (e : ErrorInfo)
  | okMalformed
  | okText (t : String)

/-- `LLMClient.summarize`: dedupe by model name keeping first
occurrences, truncate to 4 rows, send those to the oracle together with
the question and the total row count, and append the deterministic
buy-links section to the narrative. -/
def summarize (userQuery : String) (df : List Row)
    (post : String → List Row → Nat → PostResult) : Option String × Option ErrorInfo :=
  let dfLimited := (dedupByModel df).take 4
  match post userQuery dfLimited df.length with
  | .err e => (none, some e)
  | .okMalformed =>
    (none, some ⟨.invalidResponse,
      "⚠️ **Response Format Error**\n\nI received an unexpected response format. Please try again.", none⟩)
  | .okText summary => (some (summary ++ generateBuyLinks dfLimited), none)

/-! ## `LLMClient._normalize_sql_case`

The source rewrites, for each of the three string columns, every
occurrence of `"Col" = 'v'` (pattern 1) and `"Col" LIKE 'v'`
(pattern 2) — quote `'` or `"`, value a non-empty run without quote
characters, matching case-insensitive — into the `LOWER(...)`-wrapped
form, scanning left-to-right without rescanning replacements (`re.sub`).
The regexes are deterministic: the greedy `[^'\x22]+` run must end at
the closing quote `\1`, and `\s*`/`\s+` runs must end at the next
literal, so a direct functional scanner implements them exactly.
-/

/-- Case-insensitive match of a literal pattern as a prefix; returns
the rest of the input on success. -/
def ciPrefixRest : List Char → List Char → Option (List Char)
  | [], s => some s
  | _ :: _, [] => none
  | p :: ps, c :: cs =>
    if p.toLower == c.toLower then ciPrefixRest ps cs else none

def isQuoteChar (c : Char) : Bool := c == '\'' || c == '"'

/-- `(['\x22])([^'\x22]+)\1`: an opening quote, a non-empty maximal run
of non-quote characters, and the matching closing quote. -/
def matchQuoted : List Char → Option (Char × List Char × List Char)
  | [] => none
  | q :: rest =>
    if isQuoteChar q then
      let v := rest.takeWhile fun c => !(isQuoteChar c)
      match rest.drop v.length with
      | q2 :: rest2 => if v.isEmpty then none else if q2 == q then some (q, v, rest2) else none
      | [] => none
    else none

/-- `\s*=\s*` followed by the quoted value (pattern 1's tail). -/
def matchEqTail (s : List Char) : Option (Char × List Char × List Char) :=
  match s.dropWhile isPyWS with
  | c1 :: s2 => if c1 = '=' then matchQuoted (s2.dropWhile isPyWS) else none
  | [] => none

/-- `\s+LIKE\s+` followed by the quoted value (pattern 2's tail);
`LIKE` matches case-insensitively under `re.IGNORECASE`. -/
def matchLikeTail (s : List Char) : Option (Char × List Char × List Char) :=
  match s with
  | [] => none
  | c :: _ =>
    if isPyWS c then
      match ciPrefixRest ['l', 'i', 'k', 'e'] (s.dropWhile isPyWS) with
      | some s2 =>
        match s2 with
        | [] => none
        | c2 :: _ =>
          if isPyWS c2 then matchQuoted (s2.dropWhile isPyWS) else none
      | none => none
    else none

/-- A whole pattern-1 (`eqKind = true`) or pattern-2 match of column
`col` at the head of the input. -/
def matchColComparison (col : List Char) (eqKind : Bool) (s : List Char) :
    Option (Char × List Char × List Char) :=
  match ciPrefixRest ('"' :: col ++ ['"']) s with
  | some s1 => if eqKind then matchEqTail s1 else matchLikeTail s1
  | none => none

/-- Replacement 1: `LOWER("Col") = LOWER(\1\2\1)` (canonical column
casing, as the source's replacement template writes it). -/
def eqReplacement (col : List Char) (q : Char) (v : List Char) : List Char :=
  ('L' :: 'O' :: 'W' :: 'E' :: 'R' :: '(' :: '"' :: col) ++
  ('"' :: ')' :: ' ' :: '=' :: ' ' :: 'L' :: 'O' :: 'W' :: 'E' :: 'R' :: '(' :: q :: v) ++
  [q, ')']

/-- Replacement 2: `LOWER("Col") LIKE LOWER(\1\2\1)`. -/
def likeReplacement (col : List Char) (q : Char) (v : List Char) : List Char :=
  ('L' :: 'O' :: 'W' :: 'E' :: 'R' :: '(' :: '"' :: col) ++
  ('"' :: ')' :: ' ' :: 'L' :: 'I' :: 'K' :: 'E' :: ' ' :: 'L' :: 'O' :: 'W' :: 'E' :: 'R' :: '(' :: q :: v) ++
  [q, ')']

theorem ciPrefixRest_length : ∀ {pat s rest : List Char},
    ciPrefixRest pat s = some rest → rest.length + pat.length = s.length := by
  intro pat
  induction pat with
  | nil =>
    intro s rest h
    simp only [ciPrefixRest, Option.some.injEq] at h
    simp [← h]
  | cons p ps ih =>
    intro s rest h
    cases s with
    | nil => simp [ciPrefixRest] at h
    | cons c cs =>
      simp only [ciPrefixRest] at h
      by_cases hc : p.toLower == c.toLower
      · rw [if_pos hc] at h
        have := ih h
        simp only [List.length_cons]
        omega
      · rw [if_neg hc] at h
        cases h

theorem length_dropWhile_le (l : List Char) (p : Char → Bool) :
    (l.dropWhile p).length ≤ l.length :=
  (List.dropWhile_sublist p).length_le

theorem matchQuoted_length : ∀ {s : List Char} {q : Char} {v rest : List Char},
    matchQuoted s = some (q, v, rest) → rest.length < s.length := by
  intro s q v rest h
  cases s with
  | nil => simp [matchQuoted] at h
  | cons c cs =>
    simp only [matchQuoted] at h
    by_cases hq : isQuoteChar c
    · rw [if_pos hq] at h
      rcases hdrop : cs.drop (cs.takeWhile fun c => !(isQuoteChar c)).length with _ | ⟨q2, rest2⟩
      · rw [hdrop] at h; cases h
      · rw [hdrop] at h
        dsimp only at h
        by_cases hv : (cs.takeWhile fun c => !(isQuoteChar c)).isEmpty
        · rw [if_pos hv] at h; cases h
        · rw [if_neg hv] at h
          by_cases hq2 : q2 == c
          · rw [if_pos hq2] at h
            injection h with h'
            have hrest : rest = rest2 := by
              have := congrArg (fun x => x.2.2) h'
              simpa using this.symm
            have hdl : (q2 :: rest2).length ≤ cs.length := by
              rw [← hdrop, List.length_drop]
              exact Nat.sub_le _ _
            rw [hrest]
            simp only [List.length_cons] at hdl ⊢
            omega
          · rw [if_neg hq2] at h; cases h
    · rw [if_neg hq] at h; cases h

theorem matchEqTail_length {s : List Char} {q : Char} {v rest : List Char}
    (h : matchEqTail s = some (q, v, rest)) : rest.length < s.length := by
  unfold matchEqTail at h
  rcases hdw : s.dropWhile isPyWS with _ | ⟨c1, s2⟩
  · rw [hdw] at h; cases h
  · rw [hdw] at h
    dsimp only at h
    by_cases hc1 : c1 = '='
    · rw [if_pos hc1] at h
      have h1 := matchQuoted_length h
      have h2 : (s.dropWhile isPyWS).length ≤ s.length := length_dropWhile_le s isPyWS
      have h3 : (s2.dropWhile isPyWS).length ≤ s2.length := length_dropWhile_le s2 isPyWS
      rw [hdw] at h2
      simp only [List.length_cons] at h2
      omega
    · rw [if_neg hc1] at h
      cases h

theorem matchLikeTail_length {s : List Char} {q : Char} {v rest : List Char}
    (h : matchLikeTail s = some (q, v, rest)) : rest.length < s.length := by
  unfold matchLikeTail at h
  split at h
  · cases h
  · rename_i c cs
    split at h
    · split at h
      · rename_i s2 hci
        split at h
        · cases h
        · rename_i c2 s3
          split at h
          · have h1 := matchQuoted_length h
            have h2 := ciPrefixRest_length hci
            have h3 : ((c :: cs).dropWhile isPyWS).length ≤ (c :: cs).length :=
              length_dropWhile_le _ isPyWS
            have h4 : ((c2 :: s3).dropWhile isPyWS).length ≤ (c2 :: s3).length :=
              length_dropWhile_le _ isPyWS
            simp only [List.length_cons, List.length_nil] at *
            omega
          · cases h
      · cases h
    · cases h

theorem matchColComparison_length {col : List Char} {eqKind : Bool} {s : List Char}
    {q : Char} {v rest : List Char}
    (h : matchColComparison col eqKind s = some (q, v, rest)) : rest.length < s.length := by
  unfold matchColComparison at h
  rcases hci : ciPrefixRest ('"' :: col ++ ['"']) s with _ | s1
  · rw [hci] at h; cases h
  · rw [hci] at h
    dsimp only at h
    have hlen := ciPrefixRest_length hci
    simp only [List.length_cons, List.length_append, List.length_cons,
      List.length_nil] at hlen
    cases eqKind with
    | true =>
      simp only [if_true] at h
      have := matchEqTail_length h
      omega
    | false =>
      simp only [Bool.false_eq_true, if_false] at h
      have := matchLikeTail_length h
      omega

/-- One `re.sub` pass over the text for one column and one pattern
kind: leftmost, non-overlapping matches are replaced, replacements are
not rescanned. Structural recursion on a fuel argument so that concrete
instances reduce inside the kernel; every step consumes at least one
input character, so any fuel of at least the input length computes the
full scan (`subScanF_fuel_invariant` below). -/
def subScanF (col : List Char) (eqKind : Bool) : Nat → List Char → List Char
  | _, [] => []
  | 0, s => s
  | fuel + 1, c :: cs =>
    match matchColComparison col eqKind (c :: cs) with
    | some (q, v, rest) =>
      (if eqKind then eqReplacement col q v else likeReplacement col q v) ++
        subScanF col eqKind fuel rest
    | none => c :: subScanF col eqKind fuel cs

def subScan (col : List Char) (eqKind : Bool) (s : List Char) : List Char :=
  subScanF col eqKind s.length s

/-- The fuel does not matter as long as it covers the input length: the
fuel-exhausted branch of `subScanF` is unreachable from `subScan`. -/
theorem subScanF_fuel_invariant (col : List Char) (eqKind : Bool) :
    ∀ (fuel₁ : Nat) (fuel₂ : Nat) (s : List Char), s.length ≤ fuel₁ → s.length ≤ fuel₂ →
      subScanF col eqKind fuel₁ s = subScanF col eqKind fuel₂ s := by
  intro fuel₁
  induction fuel₁ with
  | zero =>
    intro fuel₂ s hs₁ _
    have : s = [] := List.eq_nil_of_length_eq_zero (by omega)
    subst this
    cases fuel₂ <;> rfl
  | succ f₁ ih =>
    intro fuel₂ s hs₁ hs₂
    cases s with
    | nil => cases fuel₂ <;> rfl
    | cons c cs =>
      cases fuel₂ with
      | zero => simp at hs₂
      | succ f₂ =>
        simp only [subScanF]
        cases hm : matchColComparison col eqKind (c :: cs) with
        | some t =>
          obtain ⟨q, v, rest⟩ := t
          have hr := matchColComparison_length hm
          simp only [List.length_cons] at hr hs₁ hs₂
          dsimp only
          rw [ih f₂ rest (by omega) (by omega)]
        | none =>
          simp only [List.length_cons] at hs₁ hs₂
          dsimp only
          rw [ih f₂ cs (by omega) (by omega)]

/-- The source's three string columns. -/
def stringColumns : List String := ["Company Name", "Model Name", "Processor"]

/-- `LLMClient._normalize_sql_case`: for each string column apply the
exact-match rewrite, then the LIKE rewrite. -/
def normalizeSqlCase (sqlQuery : String) : String :=
  stringColumns.foldl
    (fun q col => ⟨subScan col.data false (subScan col.data true q.data)⟩) sqlQuery

/-- Number of constraints in `cs` whose (column, operator) pair is `k`. -/
def keyCount (k : String × String) (cs : List Constraint) : Nat :=
  (cs.filter fun c => c.keyMatches k.1 k.2).length

/-- The first constraint in `cs` with (column, operator) pair `k`, if any:
the entry the merge loop would replace. -/
def firstWithKey (k : String × String) (cs : List Constraint) : Option Constraint :=
  cs.find? fun c => c.keyMatches k.1 k.2

/-- Concrete intent constraints for refuting the collapse claim: two
accumulated company constraints (the "Apple and Samsung" shape §3 of the
spec describes) and two same-key price bounds. -/
def c2CompanyConstraints : List Constraint :=
  [⟨"Company Name", "==", .s "apple"⟩, ⟨"Company Name", "==", .s "samsung"⟩]

def c2PriceConstraints : List Constraint :=
  [⟨"Launched Price (INR)", ">=", .i 1000⟩, ⟨"Launched Price (INR)", ">=", .i 2000⟩]

/-- A sidebar filter set selecting the company "Google". -/
def c2CompanyFilters : Filters := ⟨some "Google", none, none, none, none, none, none⟩

/-- A sidebar filter set with only `price_min = 3000`. -/
def c2PriceFilters : Filters := ⟨none, some 3000, none, none, none, none, none⟩

/-! ### Lemmas about the merge -/

theorem keyMatches_iff (c : Constraint) (col op : String) :
    c.keyMatches col op = true ↔ c.column = col ∧ c.operator = op := by
  simp [Constraint.keyMatches]

theorem keyMatches_self (c : Constraint) : c.keyMatches c.column c.operator = true := by
  simp [Constraint.keyMatches]

theorem keyMatches_key_eq (c fc : Constraint) :
    c.keyMatches fc.column fc.operator = true ↔ c.key = fc.key := by
  simp [Constraint.keyMatches, Constraint.key, Prod.ext_iff]

theorem keyCount_cons (k : String × String) (c : Constraint) (cs : List Constraint) :
    keyCount k (c :: cs) =
      if c.keyMatches k.1 k.2 then keyCount k cs + 1 else keyCount k cs := by
  simp only [keyCount, List.filter]
  by_cases h : c.keyMatches k.1 k.2 <;> simp [h]

theorem keyCount_replaceFirstOrAppend (k : String × String)
    (cs : List Constraint) (fc : Constraint) :
    keyCount k (replaceFirstOrAppend cs fc) =
      if fc.keyMatches k.1 k.2 then
        (if keyCount k cs = 0 then 1 else keyCount k cs)
      else keyCount k cs := by
  induction cs with
  | nil =>
    simp only [replaceFirstOrAppend, keyCount, List.filter_nil, List.length_nil]
    by_cases h : fc.keyMatches k.1 k.2 <;> simp [h, List.filter]
  | cons c rest ih =>
    simp only [replaceFirstOrAppend]
    by_cases hmatch : c.keyMatches fc.column fc.operator
    · -- `c` is replaced by `fc`; `c` and `fc` share their key
      have hkey : c.key = fc.key := (keyMatches_key_eq c fc).mp hmatch
      have hsame : c.keyMatches k.1 k.2 = fc.keyMatches k.1 k.2 := by
        simp only [Constraint.keyMatches]
        have h1 : c.column = fc.column := congrArg Prod.fst hkey
        have h2 : c.operator = fc.operator := congrArg Prod.snd hkey
        rw [h1, h2]
      rw [if_pos hmatch, keyCount_cons, keyCount_cons, hsame]
      by_cases h : fc.keyMatches k.1 k.2 <;> simp [h]
    · rw [if_neg hmatch, keyCount_cons, keyCount_cons, ih]
      by_cases hc : c.keyMatches k.1 k.2
      · -- `c` counts toward `k`; then `fc` cannot also have key `k`,
        -- since `c` does not share `fc`'s key
        have hf : fc.keyMatches k.1 k.2 = false := by
          by_contra hff
          rw [Bool.not_eq_false] at hff
          obtain ⟨h1, h2⟩ := (keyMatches_iff c k.1 k.2).mp hc
          obtain ⟨h3, h4⟩ := (keyMatches_iff fc k.1 k.2).mp hff
          exact hmatch ((keyMatches_iff c fc.column fc.operator).mpr
            ⟨h1.trans h3.symm, h2.trans h4.symm⟩)
        simp [hc, hf]
      · by_cases hf : fc.keyMatches k.1 k.2 <;>
          by_cases h0 : keyCount k rest = 0 <;> simp [hc, hf, h0]

theorem self_mem_replaceFirstOrAppend (cs : List Constraint) (fc : Constraint) :
    fc ∈ replaceFirstOrAppend cs fc := by
  induction cs with
  | nil => simp [replaceFirstOrAppend]
  | cons c rest ih =>
    simp only [replaceFirstOrAppend]
    by_cases h : c.keyMatches fc.column fc.operator
    · simp [h]
    · simp only [if_neg h]
      exact List.mem_cons_of_mem c ih

theorem mem_replaceFirstOrAppend_of_key_ne {x fc : Constraint} {cs : List Constraint}
    (hx : x ∈ cs) (hk : x.key ≠ fc.key) : x ∈ replaceFirstOrAppend cs fc := by
  induction cs with
  | nil => cases hx
  | cons c rest ih =>
    simp only [replaceFirstOrAppend]
    by_cases h : c.keyMatches fc.column fc.operator
    · rw [if_pos h]
      rcases List.mem_cons.mp hx with rfl | hmem
      · exact absurd ((keyMatches_key_eq x fc).mp h) hk
      · exact List.mem_cons_of_mem fc hmem
    · rw [if_neg h]
      rcases List.mem_cons.mp hx with rfl | hmem
      · exact List.mem_cons_self x _
      · exact List.mem_cons_of_mem c (ih hmem)

theorem mem_foldl_of_all_key_ne {x : Constraint} :
    ∀ (l : List Constraint) (cs : List Constraint), x ∈ cs →
      (∀ g ∈ l, x.key ≠ g.key) → x ∈ l.foldl replaceFirstOrAppend cs := by
  intro l
  induction l with
  | nil => intro cs hx _; exact hx
  | cons g rest ih =>
    intro cs hx hne
    simp only [List.foldl_cons]
    exact ih _ (mem_replaceFirstOrAppend_of_key_ne hx (hne g (List.mem_cons_self g rest)))
      (fun g' hg' => hne g' (List.mem_cons_of_mem g hg'))

theorem mem_foldl_of_mem_of_keys_nodup {fc : Constraint} :
    ∀ (l : List Constraint) (cs : List Constraint), fc ∈ l →
      (l.map Constraint.key).Nodup → fc ∈ l.foldl replaceFirstOrAppend cs := by
  intro l
  induction l with
  | nil => intro cs h _; cases h
  | cons g rest ih =>
    intro cs hmem hnd
    simp only [List.map_cons, List.nodup_cons] at hnd
    simp only [List.foldl_cons]
    rcases List.mem_cons.mp hmem with rfl | hmem'
    · refine mem_foldl_of_all_key_ne rest _ (self_mem_replaceFirstOrAppend cs fc) ?_
      intro g' hg' heq
      exact hnd.1 (heq ▸ List.mem_map_of_mem Constraint.key hg')
    · exact ih _ hmem' hnd.2

theorem keyCount_foldl (k : String × String) :
    ∀ (l : List Constraint) (cs : List Constraint),
      keyCount k (l.foldl replaceFirstOrAppend cs) =
        if (l.any fun fc => fc.keyMatches k.1 k.2) ∧ keyCount k cs = 0 then 1
        else keyCount k cs := by
  intro l
  induction l with
  | nil => intro cs; simp
  | cons g rest ih =>
    intro cs
    simp only [List.foldl_cons, ih, keyCount_replaceFirstOrAppend, List.any_cons]
    by_cases hg : g.keyMatches k.1 k.2
    · by_cases h0 : keyCount k cs = 0 <;> simp [hg, h0]
    · by_cases h0 : keyCount k cs = 0 <;> simp [hg, h0]

/-- The (column, operator) keys of the sidebar-derived constraints are
pairwise distinct: the seven recognized filter keys map to seven
distinct (column, operator) pairs. -/
theorem filterConstraints_keys_nodup (f : Filters) :
    ((filterConstraints f).map Constraint.key).Nodup := by
  rcases f with ⟨c, p1, p2, c1, c2, b1, b2⟩
  cases c <;> cases p1 <;> cases p2 <;> cases c1 <;> cases c2 <;> cases b1 <;> cases b2 <;>
    · simp only [filterConstraints, optBound, List.map_append, List.map_cons, List.map_nil,
        Constraint.key, List.nil_append, List.cons_append, List.append_nil]
      decide

theorem firstWithKey_nil (k : String × String) : firstWithKey k [] = none := rfl

theorem firstWithKey_cons_pos {k : String × String} {c : Constraint} (rest : List Constraint)
    (h : c.keyMatches k.1 k.2 = true) : firstWithKey k (c :: rest) = some c :=
  List.find?_cons_of_pos rest h

theorem firstWithKey_cons_neg {k : String × String} {c : Constraint} (rest : List Constraint)
    (h : c.keyMatches k.1 k.2 = false) :
    firstWithKey k (c :: rest) = firstWithKey k rest :=
  List.find?_cons_of_neg rest (by simp [h])

theorem firstWithKey_replaceFirstOrAppend_self (cs : List Constraint) (fc : Constraint) :
    firstWithKey fc.key (replaceFirstOrAppend cs fc) = some fc := by
  induction cs with
  | nil => exact firstWithKey_cons_pos _ (keyMatches_self fc)
  | cons c rest ih =>
    simp only [replaceFirstOrAppend]
    by_cases h : c.keyMatches fc.column fc.operator
    · rw [if_pos h]
      exact firstWithKey_cons_pos _ (keyMatches_self fc)
    · rw [if_neg h, firstWithKey_cons_neg _ (by simpa using h)]
      exact ih

theorem firstWithKey_replaceFirstOrAppend_ne {k : String × String} {fc : Constraint}
    (hk : k ≠ fc.key) (cs : List Constraint) :
    firstWithKey k (replaceFirstOrAppend cs fc) = firstWithKey k cs := by
  have hfcF : fc.keyMatches k.1 k.2 = false := by
    rw [Bool.eq_false_iff]
    intro hT
    obtain ⟨h1, h2⟩ := (keyMatches_iff fc k.1 k.2).mp hT
    exact hk (Prod.ext h1.symm h2.symm)
  induction cs with
  | nil =>
    rw [show replaceFirstOrAppend [] fc = [fc] from rfl, firstWithKey_cons_neg _ hfcF]
  | cons c rest ih =>
    simp only [replaceFirstOrAppend]
    by_cases h : c.keyMatches fc.column fc.operator
    · have hcF : c.keyMatches k.1 k.2 = false := by
        rw [Bool.eq_false_iff]
        intro hT
        obtain ⟨h1, h2⟩ := (keyMatches_iff c k.1 k.2).mp hT
        obtain ⟨h3, h4⟩ := (keyMatches_iff c fc.column fc.operator).mp h
        exact hk (Prod.ext (h1.symm.trans h3) (h2.symm.trans h4))
      rw [if_pos h, firstWithKey_cons_neg _ hfcF, firstWithKey_cons_neg _ hcF]
    · rw [if_neg h]
      by_cases hc : c.keyMatches k.1 k.2
      · rw [firstWithKey_cons_pos _ hc, firstWithKey_cons_pos _ hc]
      · rw [firstWithKey_cons_neg _ (by simpa using hc),
          firstWithKey_cons_neg _ (by simpa using hc)]
        exact ih

theorem replaceFirstOrAppend_of_firstWithKey_self {cs : List Constraint} {fc : Constraint}
    (h : firstWithKey fc.key cs = some fc) : replaceFirstOrAppend cs fc = cs := by
  induction cs with
  | nil => simp [firstWithKey, List.find?] at h
  | cons c rest ih =>
    simp only [replaceFirstOrAppend]
    by_cases hm : c.keyMatches fc.column fc.operator
    · rw [firstWithKey_cons_pos rest hm, Option.some.injEq] at h
      rw [if_pos hm, h]
    · rw [firstWithKey_cons_neg rest (by simpa using hm)] at h
      rw [if_neg hm, ih h]

theorem firstWithKey_foldl_of_all_ne {k : String × String} :
    ∀ (l : List Constraint) (cs : List Constraint), (∀ g ∈ l, k ≠ g.key) →
      firstWithKey k (l.foldl replaceFirstOrAppend cs) = firstWithKey k cs := by
  intro l
  induction l with
  | nil => intro cs _; rfl
  | cons g rest ih =>
    intro cs hne
    simp only [List.foldl_cons]
    rw [ih _ fun g' hg' => hne g' (List.mem_cons_of_mem g hg'),
      firstWithKey_replaceFirstOrAppend_ne (hne g (List.mem_cons_self g rest))]

theorem firstWithKey_foldl_settled {fc : Constraint} :
    ∀ (l : List Constraint) (cs : List Constraint), fc ∈ l →
      (l.map Constraint.key).Nodup →
      firstWithKey fc.key (l.foldl replaceFirstOrAppend cs) = some fc := by
  intro l
  induction l with
  | nil => intro cs h _; cases h
  | cons g rest ih =>
    intro cs hmem hnd
    simp only [List.map_cons, List.nodup_cons] at hnd
    simp only [List.foldl_cons]
    rcases List.mem_cons.mp hmem with rfl | hmem'
    · rw [firstWithKey_foldl_of_all_ne rest _ ?_, firstWithKey_replaceFirstOrAppend_self]
      intro g' hg' heq
      exact hnd.1 (heq ▸ List.mem_map_of_mem Constraint.key hg')
    · exact ih _ hmem' hnd.2

theorem foldl_of_settled :
    ∀ (l : List Constraint) (m : List Constraint),
      (∀ fc ∈ l, firstWithKey fc.key m = some fc) →
      l.foldl replaceFirstOrAppend m = m := by
  intro l
  induction l with
  | nil => intro m _; rfl
  | cons g rest ih =>
    intro m hset
    simp only [List.foldl_cons,
      replaceFirstOrAppend_of_firstWithKey_self (hset g (List.mem_cons_self g rest))]
    exact ih m fun fc hfc => hset fc (List.mem_cons_of_mem g hfc)

/-! ## Claim theorems: the merge -/

/-- C2 counterexample. The claim says Company Name `==` constraints are
never collapsed by the merge and that any other two same-(column,
operator) constraints collapse to exactly one entry. On the code,
merging the sidebar company "Google" into an intent that already holds
the accumulated constraints `company == apple` and `company == samsung`
replaces (collapses) the `apple` entry; and merging `price_min = 3000`
into an intent with two `price >=` constraints leaves two `price >=`
entries, not one. -/
theorem mergeFilters_company_collapsed_counterexample :
    (⟨"Company Name", "==", .s "apple"⟩ : Constraint) ∈ c2CompanyConstraints ∧
    (⟨"Company Name", "==", .s "apple"⟩ : Constraint) ∉
      mergeFilters c2CompanyConstraints c2CompanyFilters ∧
    mergeFilters c2CompanyConstraints c2CompanyFilters =
      [⟨"Company Name", "==", .s "google"⟩, ⟨"Company Name", "==", .s "samsung"⟩] ∧
    mergeFilters c2PriceConstraints c2PriceFilters =
      [⟨"Launched Price (INR)", ">=", .i 3000⟩, ⟨"Launched Price (INR)", ">=", .i 2000⟩] := by
  refine ⟨by decide, by decide, by decide, by decide⟩

/-- C2 (amended): `_merge_filters` treats every (column, operator) key
uniformly, Company Name `==` included: each sidebar-derived constraint
replaces the first existing constraint with its key (the sidebar value
wins) or is appended when the key is absent; the merge never collapses
duplicate keys it did not introduce, so the number of constraints per
key is unchanged except that an absent sidebar key appears once. -/
theorem mergeFilters_uniform_replace (cs : List Constraint) (f : Filters) :
    (∀ k : String × String,
      keyCount k (mergeFilters cs f) =
        if ((filterConstraints f).any fun fc => fc.keyMatches k.1 k.2) ∧ keyCount k cs = 0
        then 1 else keyCount k cs) ∧
    ∀ fc ∈ filterConstraints f, fc ∈ mergeFilters cs f := by
  constructor
  · intro k
    simp only [mergeFilters]
    by_cases he : (filterConstraints f).isEmpty
    · rw [if_pos he]
      rw [List.isEmpty_iff] at he
      simp [he]
    · rw [if_neg he, keyCount_foldl]
  · intro fc hfc
    simp only [mergeFilters]
    by_cases he : (filterConstraints f).isEmpty
    · rw [List.isEmpty_iff] at he
      rw [he] at hfc
      cases hfc
    · rw [if_neg he]
      exact mem_foldl_of_mem_of_keys_nodup _ cs hfc (filterConstraints_keys_nodup f)

/-- C2 amended-claim witness: merging `company = Google` into an intent
with one `company == apple` constraint yields exactly one Company Name
`==` entry and it is the sidebar one. -/
theorem mergeFilters_uniform_replace_witness :
    keyCount ("Company Name", "==")
        (mergeFilters [⟨"Company Name", "==", .s "apple"⟩] c2CompanyFilters) = 1 ∧
    (⟨"Company Name", "==", .s "google"⟩ : Constraint) ∈
      mergeFilters [⟨"Company Name", "==", .s "apple"⟩] c2CompanyFilters := by
  constructor
  · have h := (mergeFilters_uniform_replace [⟨"Company Name", "==", .s "apple"⟩]
      c2CompanyFilters).1 ("Company Name", "==")
    rw [h]
    decide
  · exact (mergeFilters_uniform_replace [⟨"Company Name", "==", .s "apple"⟩]
      c2CompanyFilters).2 ⟨"Company Name", "==", .s "google"⟩ (by decide)

/-! ### Lemmas about the correction step -/

theorem correctCompanyStep_preserves (findC : String → Option String)
    {company : String} (st : CorrectionState)
    (h : ∀ r, findC company = some r → pyLower r = pyLower company) :
    (correctCompanyStep findC st company).corrections = st.corrections ∧
    (correctCompanyStep findC st company).correctedQuery = st.correctedQuery := by
  unfold correctCompanyStep
  cases hm : findC company with
  | none => simp [isTruthyStr]
  | some mv =>
    by_cases hmv : mv == ""
    · simp [isTruthyStr, hmv]
    · have hci : (pyLower mv == pyLower company) = true := by
        simpa using h mv hm
      simp [isTruthyStr, hmv, hci]

theorem correctModelStep_preserves (findM : String → Option String → Option String)
    {model : String} (st : CorrectionState)
    (h : ∀ comp r, findM model comp = some r → pyLower r = pyLower model) :
    (correctModelStep findM st model).corrections = st.corrections ∧
    (correctModelStep findM st model).correctedQuery = st.correctedQuery := by
  simp only [correctModelStep]
  cases hm : findM model (detectModelCompany model st.companyMap) with
  | none => simp [isTruthyStr]
  | some mv =>
    by_cases hmv : mv == ""
    · simp [isTruthyStr, hmv]
    · have hci : (pyLower mv == pyLower model) = true := by
        simpa using h _ mv hm
      simp [isTruthyStr, hmv, hci]

theorem foldl_companies_preserves (findC : String → Option String) :
    ∀ (l : List String) (st : CorrectionState),
      (∀ c ∈ l, ∀ r, findC c = some r → pyLower r = pyLower c) →
      (l.foldl (correctCompanyStep findC) st).corrections = st.corrections ∧
      (l.foldl (correctCompanyStep findC) st).correctedQuery = st.correctedQuery := by
  intro l
  induction l with
  | nil => intro st _; exact ⟨rfl, rfl⟩
  | cons c rest ih =>
    intro st hl
    simp only [List.foldl_cons]
    have h1 := correctCompanyStep_preserves findC st
      (hl c (List.mem_cons_self c rest))
    have h2 := ih (correctCompanyStep findC st c)
      fun c' hc' => hl c' (List.mem_cons_of_mem c hc')
    exact ⟨h2.1.trans h1.1, h2.2.trans h1.2⟩

theorem foldl_models_preserves (findM : String → Option String → Option String) :
    ∀ (l : List String) (st : CorrectionState),
      (∀ m ∈ l, ∀ comp r, findM m comp = some r → pyLower r = pyLower m) →
      (l.foldl (correctModelStep findM) st).corrections = st.corrections ∧
      (l.foldl (correctModelStep findM) st).correctedQuery = st.correctedQuery := by
  intro l
  induction l with
  | nil => intro st _; exact ⟨rfl, rfl⟩
  | cons m rest ih =>
    intro st hl
    simp only [List.foldl_cons]
    have h1 := correctModelStep_preserves findM st
      (hl m (List.mem_cons_self m rest))
    have h2 := ih (correctModelStep findM st m)
      fun m' hm' => hl m' (List.mem_cons_of_mem m hm')
    exact ⟨h2.1.trans h1.1, h2.2.trans h1.2⟩

theorem correctCompanyStep_corrections_mem (findC : String → Option String)
    (st : CorrectionState) (company : String) :
    ∀ rec ∈ (correctCompanyStep findC st company).corrections,
      rec ∈ st.corrections ∨ pyLower rec.corrected ≠ pyLower rec.orig := by
  intro rec hrec
  unfold correctCompanyStep at hrec
  cases hm : findC company with
  | none => rw [hm] at hrec; simp [isTruthyStr] at hrec; exact Or.inl hrec
  | some mv =>
    rw [hm] at hrec
    by_cases hmv : mv == ""
    · simp [isTruthyStr, hmv] at hrec
      exact Or.inl hrec
    · by_cases hci : pyLower mv == pyLower company
      · simp [isTruthyStr, hmv, hci] at hrec
        exact Or.inl hrec
      · simp [isTruthyStr, hmv, hci, List.mem_append] at hrec
        rcases hrec with hrec | rfl
        · exact Or.inl hrec
        · refine Or.inr ?_
          simpa [Correction.corrected, Correction.orig] using hci

theorem correctModelStep_corrections_mem (findM : String → Option String → Option String)
    (st : CorrectionState) (model : String) :
    ∀ rec ∈ (correctModelStep findM st model).corrections,
      rec ∈ st.corrections ∨ pyLower rec.corrected ≠ pyLower rec.orig := by
  intro rec hrec
  simp only [correctModelStep] at hrec
  cases hm : findM model (detectModelCompany model st.companyMap) with
  | none => rw [hm] at hrec; simp [isTruthyStr] at hrec; exact Or.inl hrec
  | some mv =>
    rw [hm] at hrec
    by_cases hmv : mv == ""
    · simp [isTruthyStr, hmv] at hrec
      exact Or.inl hrec
    · by_cases hci : pyLower mv == pyLower model
      · simp [isTruthyStr, hmv, hci] at hrec
        exact Or.inl hrec
      · simp [isTruthyStr, hmv, hci, List.mem_append] at hrec
        rcases hrec with hrec | rfl
        · exact Or.inl hrec
        · refine Or.inr ?_
          simpa [Correction.corrected, Correction.orig] using hci

theorem foldl_corrections_mem {β : Type} {step : CorrectionState → β → CorrectionState}
    (hstep : ∀ (st : CorrectionState) (b : β), ∀ rec ∈ (step st b).corrections,
      rec ∈ st.corrections ∨ pyLower rec.corrected ≠ pyLower rec.orig) :
    ∀ (l : List β) (st : CorrectionState), ∀ rec ∈ (l.foldl step st).corrections,
      rec ∈ st.corrections ∨ pyLower rec.corrected ≠ pyLower rec.orig := by
  intro l
  induction l with
  | nil => intro st rec hrec; exact Or.inl hrec
  | cons b rest ih =>
    intro st rec hrec
    simp only [List.foldl_cons] at hrec
    rcases ih (step st b) rec hrec with hmem | hne
    · exact hstep st b rec hmem
    · exact Or.inr hne

/-! ## Claim theorem: corrections -/

/-- C8: if every Semantic Matcher answer on the extracted entities
agrees case-insensitively with the raw mention, the correction step
emits no correction record and leaves the user-facing query text
unchanged; and unconditionally, every emitted correction record pairs a
raw mention with a matched name that differs case-insensitively. -/
theorem applyCorrections_ci_equal (query : String) (entities : Entities)
    (findC : String → Option String) (findM : String → Option String → Option String) :
    ((∀ c ∈ entities.companies, ∀ r, findC c = some r → pyLower r = pyLower c) ∧
     (∀ m ∈ entities.models, ∀ comp r, findM m comp = some r → pyLower r = pyLower m) →
      (applyCorrections query entities findC findM).corrections = [] ∧
      (applyCorrections query entities findC findM).correctedQuery = query) ∧
    (∀ rec ∈ (applyCorrections query entities findC findM).corrections,
      pyLower rec.corrected ≠ pyLower rec.orig) := by
  constructor
  · rintro ⟨hC, hM⟩
    unfold applyCorrections
    have h1 := foldl_companies_preserves findC entities.companies ⟨[], [], query⟩ hC
    have h2 := foldl_models_preserves findM entities.models
      (entities.companies.foldl (correctCompanyStep findC) ⟨[], [], query⟩) hM
    exact ⟨h2.1.trans h1.1, h2.2.trans h1.2⟩
  · intro rec hrec
    unfold applyCorrections at hrec
    rcases foldl_corrections_mem (correctModelStep_corrections_mem findM)
      entities.models _ rec hrec with hmem | hne
    · rcases foldl_corrections_mem (correctCompanyStep_corrections_mem findC)
        entities.companies _ rec hmem with hmem2 | hne2
      · cases hmem2
      · exact hne2
    · exact hne

/-- C8 witness: an already-canonical mention (matcher returns "Apple"
for raw "APPLE") yields zero corrections and an untouched query. -/
theorem applyCorrections_ci_equal_witness :
    (applyCorrections "compare APPLE phones" ⟨["APPLE"], []⟩
      (fun _ => some "Apple") (fun _ _ => none)).corrections = [] ∧
    (applyCorrections "compare APPLE phones" ⟨["APPLE"], []⟩
      (fun _ => some "Apple") (fun _ _ => none)).correctedQuery = "compare APPLE phones" := by
  refine (applyCorrections_ci_equal "compare APPLE phones" ⟨["APPLE"], []⟩
    (fun _ => some "Apple") (fun _ _ => none)).1 ⟨?_, ?_⟩
  · intro c hc r hr
    simp only [List.mem_singleton] at hc
    subst hc
    simp only [Option.some.injEq] at hr
    subst hr
    decide
  · intro m hm
    cases hm

/-! ### Lemmas about the retry loop -/

theorem prefix_getElem? {p l : List Nat} (h : p <+: l) {k : Nat} (hk : k < p.length) :
    l[k]? = p[k]? := by
  obtain ⟨t, rfl⟩ := h
  exact List.getElem?_append_left hk

/-- The full behaviour of the retry loop, by induction on the remaining
attempts: call count bounds, the sleeps performed, and that a further
call is made only after a 429 response or a network-family exception. -/
theorem handleWithRetryGo_spec {α : Type} (calls : Nat → ReqOutcome α)
    (maxRetries retryDelay backoffFactor : Nat) (rrl : Bool) :
    ∀ (remaining attempt : Nat) (sleeps : List Nat)
      (lastExc : Option ReqExc) (lastResp : Option HttpResp),
      attempt + remaining = maxRetries + 1 →
      1 ≤ remaining →
      sleeps.length = attempt →
      (let r := handleWithRetryGo calls maxRetries retryDelay backoffFactor rrl
        attempt remaining sleeps lastExc lastResp
       attempt < r.numCalls ∧
       r.numCalls ≤ maxRetries + 1 ∧
       sleeps <+: r.sleeps ∧
       r.sleeps.length + 1 = r.numCalls ∧
       (∀ k, attempt ≤ k → k + 1 < r.numCalls →
         ∃ e, calls k = .exc e ∧ retryableExc e = true) ∧
       (∀ k resp m, attempt ≤ k → k + 1 < r.numCalls →
         calls k = .exc (.httpError (some resp) m) →
         r.sleeps[k]? = some (resp.retryAfter.getD (retryDelay * backoffFactor ^ k))) ∧
       (∀ k e, attempt ≤ k → k + 1 < r.numCalls → calls k = .exc e →
         networkFamilyExc e = true →
         r.sleeps[k]? = some (retryDelay * backoffFactor ^ k)) ∧
       (∀ k e, attempt ≤ k → k < r.numCalls → calls k = .exc e → retryableExc e = false →
         r.numCalls = k + 1 ∧ r.result = none ∧ r.error.isSome = true)) := by
  intro remaining
  induction remaining with
  | zero =>
    intro attempt sleeps lastExc lastResp _ hrem _
    exact absurd hrem (by omega)
  | succ rem ih =>
    intro attempt sleeps lastExc lastResp hsum hrem hlen
    simp only [handleWithRetryGo]
    cases hcall : calls attempt with
    | ok v =>
      dsimp only
      refine ⟨by omega, by omega, List.prefix_refl _, by omega,
        fun k hk hk1 => absurd hk1 (by omega),
        fun k resp m hk hk1 => absurd hk1 (by omega),
        fun k e hk hk1 => absurd hk1 (by omega),
        fun k e hk hk1 hke => ?_⟩
      have : k = attempt := by omega
      subst this
      rw [hcall] at hke
      cases hke
    | exc e =>
      have terminal : ∀ (einfo : ErrorInfo),
        (let r : RetryResult α := ⟨none, some einfo, attempt + 1, sleeps⟩
         attempt < r.numCalls ∧
         r.numCalls ≤ maxRetries + 1 ∧
         sleeps <+: r.sleeps ∧
         r.sleeps.length + 1 = r.numCalls ∧
         (∀ k, attempt ≤ k → k + 1 < r.numCalls →
           ∃ e, calls k = .exc e ∧ retryableExc e = true) ∧
         (∀ k resp m, attempt ≤ k → k + 1 < r.numCalls →
           calls k = .exc (.httpError (some resp) m) →
           r.sleeps[k]? = some (resp.retryAfter.getD (retryDelay * backoffFactor ^ k))) ∧
         (∀ k e, attempt ≤ k → k + 1 < r.numCalls → calls k = .exc e →
           networkFamilyExc e = true →
           r.sleeps[k]? = some (retryDelay * backoffFactor ^ k)) ∧
         (∀ k e2, attempt ≤ k → k < r.numCalls → calls k = .exc e2 → retryableExc e2 = false →
           r.numCalls = k + 1 ∧ r.result = none ∧ r.error.isSome = true)) := by
        intro einfo
        dsimp only
        exact ⟨by omega, by omega, List.prefix_refl _, by omega,
          fun k hk hk1 => absurd hk1 (by omega),
          fun k resp m hk hk1 => absurd hk1 (by omega),
          fun k e2 hk hk1 => absurd hk1 (by omega),
          fun k e2 hk hk1 hke hr => ⟨by omega, rfl, rfl⟩⟩
      have stepRetry : ∀ (d : Nat) (le : Option ReqExc) (lr : Option HttpResp),
        attempt < maxRetries →
        retryableExc e = true →
        (networkFamilyExc e = true → d = retryDelay * backoffFactor ^ attempt) →
        (∀ resp m, e = .httpError (some resp) m →
          d = resp.retryAfter.getD (retryDelay * backoffFactor ^ attempt)) →
        (let r := handleWithRetryGo calls maxRetries retryDelay backoffFactor rrl
          (attempt + 1) rem (sleeps ++ [d]) le lr
         attempt < r.numCalls ∧
         r.numCalls ≤ maxRetries + 1 ∧
         sleeps <+: r.sleeps ∧
         r.sleeps.length + 1 = r.numCalls ∧
         (∀ k, attempt ≤ k → k + 1 < r.numCalls →
           ∃ e, calls k = .exc e ∧ retryableExc e = true) ∧
         (∀ k resp m, attempt ≤ k → k + 1 < r.numCalls →
           calls k = .exc (.httpError (some resp) m) →
           r.sleeps[k]? = some (resp.retryAfter.getD (retryDelay * backoffFactor ^ k))) ∧
         (∀ k e, attempt ≤ k → k + 1 < r.numCalls → calls k = .exc e →
           networkFamilyExc e = true →
           r.sleeps[k]? = some (retryDelay * backoffFactor ^ k)) ∧
         (∀ k e2, attempt ≤ k → k < r.numCalls → calls k = .exc e2 → retryableExc e2 = false →
           r.numCalls = k + 1 ∧ r.result = none ∧ r.error.isSome = true)) := by
        intro d le lr hlt hretry hnet hhttp
        have hlen2 : (sleeps ++ [d]).length = attempt + 1 := by
          simp [hlen]
        obtain ⟨ha, hb, hpre, hslen, hretryk, hhttpk, hnetk, hstopk⟩ :=
          ih (attempt + 1) (sleeps ++ [d]) le lr (by omega) (by omega) hlen2
        have hgetd :
            (handleWithRetryGo calls maxRetries retryDelay backoffFactor rrl
              (attempt + 1) rem (sleeps ++ [d]) le lr).sleeps[attempt]? = some d := by
          rw [prefix_getElem? hpre (by omega)]
          have h0 : (sleeps ++ [d])[sleeps.length]? = some d :=
            List.getElem?_concat_length sleeps d
          rwa [hlen] at h0
        refine ⟨by omega, hb, (List.prefix_append sleeps [d]).trans hpre, hslen,
          ?_, ?_, ?_, ?_⟩
        · intro k hk hk1
          rcases Nat.eq_or_lt_of_le hk with rfl | hk2
          · exact ⟨e, hcall, hretry⟩
          · exact hretryk k (by omega) hk1
        · intro k resp m hk hk1 hke
          rcases Nat.eq_or_lt_of_le hk with rfl | hk2
          · rw [hcall] at hke
            cases hke
            rw [hgetd, hhttp resp m rfl]
          · exact hhttpk k resp m (by omega) hk1 hke
        · intro k e2 hk hk1 hke hnet2
          rcases Nat.eq_or_lt_of_le hk with rfl | hk2
          · rw [hcall] at hke
            cases hke
            rw [hgetd, hnet hnet2]
          · exact hnetk k e2 (by omega) hk1 hke hnet2
        · intro k e2 hk hk1 hke hnr
          rcases Nat.eq_or_lt_of_le hk with rfl | hk2
          · rw [hcall] at hke
            cases hke
            rw [hnr] at hretry
            cases hretry
          · exact hstopk k e2 (by omega) hk1 hke hnr
      cases e with
      | httpError resp msg =>
        dsimp only
        cases resp with
        | some r0 =>
          dsimp only
          by_cases h429 : r0.status == 429
          · rw [if_pos h429]
            by_cases hstop : !rrl || decide (attempt ≥ maxRetries)
            · rw [if_pos hstop]
              exact terminal _
            · rw [if_neg hstop]
              have hstop' : (!rrl || decide (attempt ≥ maxRetries)) = false := by
                rwa [Bool.not_eq_true] at hstop
              have hlt : attempt < maxRetries := by
                rcases Bool.or_eq_false_iff.mp hstop' with ⟨_, h2⟩
                have := of_decide_eq_false h2
                omega
              refine stepRetry _ (some (.httpError (some r0) msg)) (some r0) hlt
                (by simp [retryableExc, h429])
                (by intro h; simp [networkFamilyExc] at h) ?_
              intro resp2 m2 heq
              cases heq
              rfl
          · rw [if_neg h429]
            exact terminal _
        | none =>
          dsimp only
          exact terminal _
      | connectionError m =>
        dsimp only
        by_cases hlt : attempt < maxRetries
        · rw [if_pos hlt]
          exact stepRetry _ (some (.connectionError m)) none hlt rfl
            (fun _ => rfl) (fun resp m2 h => ReqExc.noConfusion h)
        · rw [if_neg hlt]
          exact terminal _
      | timeoutExc m =>
        dsimp only
        by_cases hlt : attempt < maxRetries
        · rw [if_pos hlt]
          exact stepRetry _ (some (.timeoutExc m)) none hlt rfl
            (fun _ => rfl) (fun resp m2 h => ReqExc.noConfusion h)
        · rw [if_neg hlt]
          exact terminal _
      | requestException m =>
        dsimp only
        by_cases hlt : attempt < maxRetries
        · rw [if_pos hlt]
          exact stepRetry _ (some (.requestException m)) none hlt rfl
            (fun _ => rfl) (fun resp m2 h => ReqExc.noConfusion h)
        · rw [if_neg hlt]
          exact terminal _
      | otherExc m =>
        dsimp only
        exact terminal _

/-! ### Lemmas about the Summarizer's deduplication -/

theorem dedupByModelGo_sublist : ∀ (rows : List Row) (seen : List String),
    List.Sublist (dedupByModelGo seen rows) rows := by
  intro rows
  induction rows with
  | nil => intro seen; exact List.Sublist.refl _
  | cons r rest ih =>
    intro seen
    simp only [dedupByModelGo]
    by_cases h : seen.contains r.model
    · rw [if_pos h]
      exact (ih seen).cons r
    · rw [if_neg h]
      exact (ih (r.model :: seen)).cons₂ r

theorem dedupByModelGo_find? : ∀ (rows : List Row) (seen : List String) (r : Row),
    r ∈ dedupByModelGo seen rows →
      seen.contains r.model = false ∧
      rows.find? (fun x => x.model == r.model) = some r := by
  intro rows
  induction rows with
  | nil => intro seen r h; cases h
  | cons c rest ih =>
    intro seen r hmem
    simp only [dedupByModelGo] at hmem
    by_cases h : seen.contains c.model
    · rw [if_pos h] at hmem
      obtain ⟨hseen, hfind⟩ := ih seen r hmem
      refine ⟨hseen, ?_⟩
      have hcm : (c.model == r.model) = false := by
        rw [Bool.eq_false_iff]
        intro hT
        rw [eq_of_beq hT] at h
        rw [h] at hseen
        cases hseen
      rw [List.find?_cons_of_neg _ (by simp [hcm]), hfind]
    · rw [if_neg h] at hmem
      rcases List.mem_cons.mp hmem with rfl | hmem'
      · refine ⟨by simpa using h, ?_⟩
        rw [List.find?_cons_of_pos _ (by simp)]
      · obtain ⟨hseen, hfind⟩ := ih (c.model :: seen) r hmem'
        rw [List.contains_cons, Bool.or_eq_false_iff] at hseen
        refine ⟨hseen.2, ?_⟩
        have hcm : (c.model == r.model) = false := by
          have := hseen.1
          rw [Bool.eq_false_iff] at this ⊢
          intro hT
          exact this (by rw [eq_of_beq hT]; exact beq_self_eq_true _)
        rw [List.find?_cons_of_neg _ (by simp [hcm]), hfind]

theorem dedupByModelGo_models_nodup : ∀ (rows : List Row) (seen : List String),
    ((dedupByModelGo seen rows).map Row.model).Nodup := by
  intro rows
  induction rows with
  | nil => intro seen; exact List.nodup_nil
  | cons c rest ih =>
    intro seen
    simp only [dedupByModelGo]
    by_cases h : seen.contains c.model
    · rw [if_pos h]
      exact ih seen
    · rw [if_neg h]
      simp only [List.map_cons, List.nodup_cons]
      refine ⟨?_, ih (c.model :: seen)⟩
      intro hmem
      obtain ⟨q, hq, hqm⟩ := List.mem_map.mp hmem
      obtain ⟨hseen, _⟩ := dedupByModelGo_find? rest (c.model :: seen) q hq
      rw [List.contains_cons, Bool.or_eq_false_iff] at hseen
      have := hseen.1
      rw [hqm] at this
      simp at this

theorem dedupByModelGo_complete : ∀ (rows : List Row) (seen : List String) (r : Row),
    r ∈ rows →
      seen.contains r.model = true ∨
      ∃ q ∈ dedupByModelGo seen rows, q.model = r.model := by
  intro rows
  induction rows with
  | nil => intro seen r h; cases h
  | cons c rest ih =>
    intro seen r hmem
    simp only [dedupByModelGo]
    by_cases h : seen.contains c.model
    · rw [if_pos h]
      rcases List.mem_cons.mp hmem with rfl | hmem'
      · exact Or.inl h
      · exact ih seen r hmem'
    · rw [if_neg h]
      rcases List.mem_cons.mp hmem with rfl | hmem'
      · exact Or.inr ⟨r, List.mem_cons_self r _, rfl⟩
      · rcases ih (c.model :: seen) r hmem' with hseen | ⟨q, hq, hqm⟩
        · rw [List.contains_cons] at hseen
          rcases Bool.or_eq_true_iff.mp hseen with hcm | hs
          · exact Or.inr ⟨c, List.mem_cons_self c _, (eq_of_beq hcm).symm⟩
          · exact Or.inl hs
        · exact Or.inr ⟨q, List.mem_cons_of_mem c hq, hqm⟩

theorem string_foldl_append : ∀ (l : List String) (s : String),
    l.foldl (· ++ ·) s = s ++ l.foldl (· ++ ·) "" := by
  intro l
  induction l with
  | nil => intro s; simp [String.append_empty]
  | cons a rest ih =>
    intro s
    simp only [List.foldl_cons]
    rw [ih (s ++ a), ih ("" ++ a), String.empty_append, String.append_assoc]

theorem stringJoin_cons (a : String) (l : List String) :
    String.join (a :: l) = a ++ String.join l := by
  simp only [String.join, List.foldl_cons]
  rw [string_foldl_append l ("" ++ a), String.empty_append]

theorem foldl_buyLinkEntry : ∀ (rows : List Row) (acc : String),
    rows.foldl (fun a r => a ++ buyLinkEntry r) acc =
      acc ++ String.join (rows.map buyLinkEntry) := by
  intro rows
  induction rows with
  | nil => intro acc; simp [String.join, String.append_empty]
  | cons r rest ih =>
    intro acc
    simp only [List.foldl_cons, List.map_cons]
    rw [ih (acc ++ buyLinkEntry r), stringJoin_cons, ← String.append_assoc]

/-! ## `QueryProcessor.process` and its dispatch helpers

The orchestrator. External collaborators are parameters: the oracle
methods of `LLMClient`, the Semantic Matcher lookups, and the store's
`query`. Python's dynamic typing matters here: `LLMClient.generate_sql`
(and `summarize`, `answer_general`) return `(value, error)` 2-tuples
although their annotations say `-> str`, and `QueryProcessor` treats the
returned value as a string (`sql_query.strip()`...). We model the
values flowing through the result dict with `PyVal` and string-method
calls on them with `Except PyExc`, so the embedding exhibits exactly
the `AttributeError` the source raises. -/

/-- A Python value as stored in the result dict. -/
inductive PyVal where
  | str (s : String)
  | noneV
  | tuple (a b : PyVal)
  | errInfo (e : ErrorInfo)
  | rows (rs : List Row)
deriving DecidableEq, Repr

/-- Exceptions the orchestrator can raise or observe. -/
inductive PyExc where
  | attributeError (typeName attrName : String)
  | typeError (msg : String)
  | dbError (msg : String)
deriving DecidableEq, Repr

def pyOfOptStr : Option String → PyVal
  | some s => .str s
  | none => .noneV

def pyOfOptErr : Option ErrorInfo → PyVal
  | some e => .errInfo e
  | none => .noneV

/-- A `(value, error)` pair as `LLMClient` returns it. -/
def pyOfPair (p : Option String × Option ErrorInfo) : PyVal :=
  .tuple (pyOfOptStr p.1) (pyOfOptErr p.2)

/-- Calling `.strip()` on a dynamic value: only strings have the
attribute; a tuple raises `AttributeError`. -/
def pyValStrip : PyVal → Except PyExc String
  | .str s => .ok (pyStrip s)
  | .tuple _ _ => .error (.attributeError "tuple" "strip")
  | .noneV => .error (.attributeError "NoneType" "strip")
  | .errInfo _ => .error (.attributeError "dict" "strip")
  | .rows _ => .error (.attributeError "DataFrame" "strip")

/-- `s.startswith(pre)`. -/
def pyStartsWith (pre s : String) : Bool := pre.data.isPrefixOf s.data

/-- `pd.read_sql_query` called with the dynamic value the source passes
as the SQL text; only a string reaches the store. -/
def pyDbQuery (db : String → Except String (List Row)) : PyVal → Except PyExc (List Row)
  | .str s => (db s).mapError PyExc.dbError
  | _ => .error (.typeError "pd.read_sql_query expects a string")

/-- The parsed intent as `process` consumes it. `error` is the marker
`parse_intent` sets on its fallback response. -/
structure Intent where
  error : Option ErrorInfo
  entities : Entities
  task : Option String
  constraints : List Constraint
  refusalReason : Option String
  modelsToCompare : List String
deriving Repr

/-- The oracle-side collaborators of the orchestrator. `generateSql`
mirrors the source's `LLMClient.generate_sql`, which returns a
`(sql, error)` 2-tuple on both paths despite its `-> str` annotation. -/
structure LLMOracle where
  parseIntent : String → Intent
  generateSql : Intent → Option String × Option ErrorInfo
  summarizePost : String → List Row → Nat → PostResult
  answerGeneral : String → Option String × Option ErrorInfo

/-- Calls the orchestrator makes on the semantic index and the store. -/
inductive Effect where
  | vectorFind (text : String)
  | dbQuery
deriving DecidableEq, Repr

/-- `QueryProcessor._normalize_intent` on the constraint list. -/
def normalizeConstraints (cs : List Constraint) : List Constraint :=
  cs.map fun c =>
    match c.value with
    | .s v => if stringColumns.contains c.column then { c with value := .s (pyLower v) } else c
    | .i _ => c

/-- `QueryProcessor._normalize_intent`. -/
def normalizeIntent (i : Intent) : Intent :=
  { i with
    constraints := normalizeConstraints i.constraints
    modelsToCompare := i.modelsToCompare.map pyLower }

/-- `QueryProcessor._snap_model_names`: re-snap every string-valued
`Model Name` constraint to the matcher's answer when truthy. -/
def snapModelNames (cs : List Constraint)
    (findM : String → Option String → Option String) : List Constraint :=
  cs.map fun c =>
    if c.column = "Model Name" then
      match c.value with
      | .s v =>
        let m := findM v none
        if isTruthyStr m then { c with value := .s (m.getD "") } else c
      | .i _ => c
    else c

/-- `QueryProcessor._get_corrected_models`: one matcher lookup per
extracted model, falling back to the raw mention on a falsy answer. -/
def getCorrectedModels (entities : Entities) (companyMap : List (String × String))
    (findM : String → Option String → Option String) : List String :=
  entities.models.map fun model =>
    let m := findM model (detectModelCompany model companyMap)
    if isTruthyStr m then m.getD "" else model

/-- The result dict `process` builds (`corrections`, `task`, `sql`,
`results`, `content`). -/
structure ProcResult where
  corrections : List Correction
  task : Option String
  sql : Option PyVal
  results : Option (List Row)
  content : PyVal
deriving DecidableEq, Repr

def apologyMsg : String :=
  "❌ **Oops!** I couldn't process your query right now. Please try again in a moment, or rephrase your question."

def cannotGenerateMsg : String :=
  "❌ **Sorry, I couldn't generate a proper search query.** Please try rephrasing your question or use the sidebar filters to browse phones."

def noResultsMsg : String :=
  "😔 **No phones found matching your criteria.**\n\n**Suggestions:**\n- Try adjusting your filters in the sidebar\n- Ask for recommendations (e.g., 'Best phone under ₹50,000')\n- Check if the model name is spelled correctly"

def searchOopsMsg : String :=
  "❌ **Oops!** Something went wrong while searching. Please try again or rephrase your query."

def multiNotFoundMsg : String :=
  "😔 **Sorry, I couldn't find those phones in our database.**\n\n**Try:**\n- Check the spelling of model names\n- Use the sidebar filters to browse available phones\n- Ask for recommendations instead (e.g., 'Best phone under ₹50,000')"

def unknownTaskMsg : String :=
  "🤔 **I'm not sure how to help with that.** Please ask about:\n- Phone comparisons\n- Recommendations\n- Phone specifications\n- General tech questions about phones"

def refusalMsg (reason : Option String) : String :=
  "🚫 **I can't help with that request.** " ++
    reason.getD "Please ask about mobile phones instead."

/-- Python `repr` of a dynamic value as it appears inside a formatted
tuple (strings quoted). -/
def pyValRepr : PyVal → String
  | .str s => "'" ++ s ++ "'"
  | .noneV => "None"
  | .tuple a b => "(" ++ pyValRepr a ++ ", " ++ pyValRepr b ++ ")"
  | .errInfo _ => "{...}"
  | .rows _ => "DataFrame"

/-- Python `str` of a dynamic value (an f-string piece). -/
def pyValFormat : PyVal → String
  | .str s => s
  | .tuple a b => "(" ++ pyValRepr a ++ ", " ++ pyValRepr b ++ ")"
  | v => pyValRepr v

/-- `pd.concat(...).drop_duplicates()`: keep-first dedup on whole rows. -/
def dedupRowsGo (seen : List Row) : List Row → List Row
  | [] => []
  | r :: rest =>
    if seen.contains r then dedupRowsGo seen rest
    else r :: dedupRowsGo (r :: seen) rest

def dedupRows (rows : List Row) : List Row := dedupRowsGo [] rows

/-- `QueryProcessor._process_single_query`. The source first calls
`.strip()` on `generate_sql`'s return value — a 2-tuple — so this
raises `AttributeError` before any store access. The remainder is still
translated faithfully. -/
def processSingleQuery (query : String) (intent : Intent) (result : ProcResult)
    (oracle : LLMOracle) (db : String → Except String (List Row)) :
    Except PyExc (ProcResult × List Effect) := do
  let sqlVal := pyOfPair (oracle.generateSql intent)
  let result := { result with sql := some sqlVal }
  let stripped ← pyValStrip sqlVal
  if !(pyStartsWith "select" (pyLower stripped)) then
    return ({ result with content := .str cannotGenerateMsg }, [])
  else
    match pyDbQuery db sqlVal with
    | .error _ =>
      -- `except Exception` around the store access
      return ({ result with content := .str searchOopsMsg }, [.dbQuery])
    | .ok df =>
      let result := { result with results := some df }
      if df.isEmpty then
        return ({ result with content := .str noResultsMsg }, [.dbQuery])
      else
        return ({ result with
          content := pyOfPair (summarize query df oracle.summarizePost) }, [.dbQuery])

/-- The per-model loop of `_process_multi_model`, accumulating result
sets and the per-model SQL values. The `.strip()` on `generate_sql`'s
tuple raises on the first model, before the try/except around the
store call is ever entered. -/
def multiModelLoop (oracle : LLMOracle) (db : String → Except String (List Row)) :
    List String → List (List Row) → List (String × PyVal) →
    Except PyExc (List (List Row) × List (String × PyVal) × List Effect)
  | [], allDfs, allSqls => .ok (allDfs, allSqls, [])
  | modelName :: rest, allDfs, allSqls => do
    let singleIntent : Intent :=
      ⟨none, ⟨[], []⟩, some "query",
        [⟨"Model Name", "==", .s modelName⟩], none, []⟩
    let singleIntent := normalizeIntent singleIntent
    let sqlVal := pyOfPair (oracle.generateSql singleIntent)
    let allSqls := allSqls ++ [(modelName, sqlVal)]
    let stripped ← pyValStrip sqlVal
    if pyStartsWith "select" (pyLower stripped) then
      match pyDbQuery db sqlVal with
      | .error _ =>
        -- `except Exception`: status note, continue with the rest
        let res ← multiModelLoop oracle db rest allDfs allSqls
        return (res.1, res.2.1, .dbQuery :: res.2.2)
      | .ok df =>
        let allDfs := if df.isEmpty then allDfs else allDfs ++ [df]
        let res ← multiModelLoop oracle db rest allDfs allSqls
        return (res.1, res.2.1, .dbQuery :: res.2.2)
    else
      multiModelLoop oracle db rest allDfs allSqls

/-- `QueryProcessor._process_multi_model`. -/
def processMultiModel (query : String) (models : List String) (result : ProcResult)
    (oracle : LLMOracle) (db : String → Except String (List Row)) :
    Except PyExc (ProcResult × List Effect) := do
  let res ← multiModelLoop oracle db models [] []
  let (allDfs, allSqls, fx) := res
  let result := { result with
    sql := some (.str (String.intercalate "\n\n"
      (allSqls.map fun (p : String × PyVal) => "-- " ++ p.1 ++ "\n" ++ pyValFormat p.2))) }
  if !allDfs.isEmpty then
    let df := dedupRows allDfs.flatten
    let result := { result with results := some df }
    return ({ result with
      content := pyOfPair (summarize query df oracle.summarizePost) }, fx)
  else
    return ({ result with content := .str multiNotFoundMsg }, fx)

/-- `QueryProcessor.process`: the full pipeline. Returns the result (or
the uncaught exception) together with the semantic-index/store calls
made. -/
def process (userQuery : String) (filters : Filters) (oracle : LLMOracle)
    (findC : String → Option String)
    (findM : String → Option String → Option String)
    (db : String → Except String (List Row)) :
    Except PyExc ProcResult × List Effect :=
  let result0 : ProcResult := ⟨[], none, none, none, .str ""⟩
  let intent := oracle.parseIntent userQuery
  if intent.error.isSome then
    (.ok { result0 with content := .str apologyMsg }, [])
  else
    -- entities are popped out of the intent dict
    let entities := intent.entities
    let intent := { intent with entities := ⟨[], []⟩ }
    let corr := applyCorrections userQuery entities findC findM
    let result1 := { result0 with corrections := corr.corrections }
    let traceCorr := entities.companies.map Effect.vectorFind ++
      entities.models.map Effect.vectorFind
    let intent := { intent with constraints := mergeFilters intent.constraints filters }
    let intent := normalizeIntent intent
    let traceSnap := (intent.constraints.filterMap fun c =>
      if c.column = "Model Name" then
        match c.value with
        | .s v => some (Effect.vectorFind v)
        | .i _ => none
      else none)
    let intent := { intent with constraints := snapModelNames intent.constraints findM }
    let task := intent.task.getD "query"
    let result2 := { result1 with task := some task }
    let correctedModels := getCorrectedModels entities corr.companyMap findM
    let traceModels := entities.models.map Effect.vectorFind
    let baseTrace := traceCorr ++ traceSnap ++ traceModels
    if task == "general_qa" then
      (.ok { result2 with
        content := pyOfPair (oracle.answerGeneral corr.correctedQuery) }, baseTrace)
    else if task == "query" then
      if correctedModels.length > 1 then
        match processMultiModel corr.correctedQuery correctedModels result2 oracle db with
        | .ok (res, fx) => (.ok res, baseTrace ++ fx)
        | .error e => (.error e, baseTrace)
      else
        match processSingleQuery corr.correctedQuery intent result2 oracle db with
        | .ok (res, fx) => (.ok res, baseTrace ++ fx)
        | .error e => (.error e, baseTrace)
    else if task == "refusal" then
      (.ok { result2 with content := .str (refusalMsg intent.refusalReason) }, baseTrace)
    else
      (.ok { result2 with content := .str unknownTaskMsg }, baseTrace)

/-! ### Lemmas about the SQL rewrite -/

theorem toLower_eq_dq {c : Char} (h : c.toLower = '"') : c = '"' := by
  unfold Char.toLower at h
  simp only [] at h
  by_cases hcond : c.toNat ≥ 65 ∧ c.toNat ≤ 90
  · rw [if_pos hcond] at h
    exfalso
    have hvalid : Nat.isValidChar (c.toNat + 32) := by
      left
      omega
    have h2 : (Char.ofNat (c.toNat + 32)).toNat = c.toNat + 32 := by
      rw [Char.ofNat, dif_pos hvalid]
      rfl
    rw [h] at h2
    have hq : ('"' : Char).toNat = 34 := rfl
    omega
  · rw [if_neg hcond] at h
    exact h

/-- Both rewrite patterns open with a literal double quote, so no match
can start at a character other than `"`. -/
theorem matchColComparison_none_of_ne_dq {col : List Char} {eqKind : Bool}
    {c : Char} {cs : List Char} (hc : c ≠ '"') :
    matchColComparison col eqKind (c :: cs) = none := by
  unfold matchColComparison
  have hci : ciPrefixRest ('"' :: col ++ ['"']) (c :: cs) = none := by
    simp only [List.cons_append, ciPrefixRest]
    rw [if_neg ?_]
    intro hbeq
    have hl : ('"' : Char).toLower = '"' := by decide
    have : c.toLower = '"' := by
      have := eq_of_beq hbeq
      rw [hl] at this
      exact this.symm
    exact hc (toLower_eq_dq this)
  rw [hci]

theorem subScanF_id_of_no_dq (col : List Char) (eqKind : Bool) :
    ∀ (fuel : Nat) (s : List Char), (∀ c ∈ s, c ≠ '"') →
      subScanF col eqKind fuel s = s := by
  intro fuel
  induction fuel with
  | zero =>
    intro s _
    cases s <;> rfl
  | succ f ih =>
    intro s hs
    cases s with
    | nil => rfl
    | cons c cs =>
      simp only [subScanF,
        matchColComparison_none_of_ne_dq (hs c (List.mem_cons_self c cs))]
      rw [ih cs fun c' hc' => hs c' (List.mem_cons_of_mem c hc')]

theorem string_mk_data (q : String) : String.mk q.data = q := rfl

theorem normalize_foldl_id : ∀ (cols : List String) (q : String),
    (∀ c ∈ q.data, c ≠ '"') →
    cols.foldl (fun q col => ⟨subScan col.data false (subScan col.data true q.data)⟩) q
      = q := by
  intro cols
  induction cols with
  | nil => intro q _; rfl
  | cons col rest ih =>
    intro q hq
    simp only [List.foldl_cons]
    have hinner : subScan col.data true q.data = q.data := by
      rw [subScan]
      exact subScanF_id_of_no_dq col.data true _ _ hq
    have houter : subScan col.data false q.data = q.data := by
      rw [subScan]
      exact subScanF_id_of_no_dq col.data false _ _ hq
    rw [hinner, houter, string_mk_data]
    exact ih q hq

theorem normalizeSqlCase_id_of_no_dq {s : String} (h : ∀ c ∈ s.data, c ≠ '"') :
    normalizeSqlCase s = s := by
  rw [normalizeSqlCase]
  exact normalize_foldl_id stringColumns s h

/-! ## Claim theorems: the orchestrator -/

/-- A well-behaved oracle for exercising the pipeline: intent parsing
succeeds with task `query`, SQL generation returns a proper SELECT (as
`generate_sql` does, inside its `(sql, error)` tuple), summarization
succeeds. -/
def pipeOracle : LLMOracle where
  parseIntent := fun _ => ⟨none, ⟨[], []⟩, some "query", [], none, []⟩
  generateSql := fun _ =>
    (some "SELECT * FROM mobiles_india_preprocessed LIMIT 5", none)
  summarizePost := fun _ _ _ => .okText "narrative"
  answerGeneral := fun _ => (some "answer", none)

/-- An oracle whose intent extraction reports two model mentions. -/
def pipeOracleTwoModels : LLMOracle where
  parseIntent := fun _ => ⟨none, ⟨[], ["iPhone 16", "Galaxy S24"]⟩, some "query", [], none, []⟩
  generateSql := fun _ =>
    (some "SELECT * FROM mobiles_india_preprocessed LIMIT 5", none)
  summarizePost := fun _ _ _ => .okText "narrative"
  answerGeneral := fun _ => (some "answer", none)

/-- An oracle whose intent extraction fails with the error marker (the
deterministic fallback of `parse_intent` on a transport error). -/
def erroringOracle : LLMOracle where
  parseIntent := fun _ =>
    ⟨some ⟨.networkError, "Connection Error", none⟩, ⟨[], []⟩, some "query", [], none, []⟩
  generateSql := fun _ => (none, some ⟨.networkError, "Connection Error", none⟩)
  summarizePost := fun _ _ _ => .okMalformed
  answerGeneral := fun _ => (none, none)

/-- The empty sidebar filter set. -/
def noFilters : Filters := ⟨none, none, none, none, none, none, none⟩

/-- C1 (code bug exhibited): on a successfully parsed `query`-task
intent the pipeline reaches query synthesis, where
`_process_single_query` calls `.strip()` on `generate_sql`'s return
value; `generate_sql` returns a `(sql, error)` 2-tuple on every path
(despite its `-> str` annotation), so `process` raises
`AttributeError` to its caller instead of reaching `Done` — even
though the oracle produced a valid SELECT. -/
theorem process_raises_attributeError :
    (process "best phone under 30000" noFilters pipeOracle
      (fun _ => none) (fun _ _ => none) (fun _ => .ok [])).1 =
      .error (.attributeError "tuple" "strip") := by
  rfl

/-- C3 (code bug exhibited): the MultiEntity fan-out crashes on its
first model at `sql_query.strip()` — before the per-model try/except
that the claim describes is ever entered — because `generate_sql`
returned a 2-tuple; no store-execution failure can be caught and no
remaining model is processed. The deterministic multi-entity
"not found" message does differ from the single-entity
zero-filter-match message, as the claim says, but that code is
unreachable. -/
theorem processMultiModel_raises_attributeError :
    processMultiModel "compare iPhone 16 and Galaxy S24" ["iPhone 16", "Galaxy S24"]
        ⟨[], some "query", none, none, .str ""⟩ pipeOracleTwoModels (fun _ => .ok []) =
      .error (.attributeError "tuple" "strip") ∧
    (process "compare iPhone 16 and Galaxy S24" noFilters pipeOracleTwoModels
      (fun _ => none) (fun m _ => some m) (fun _ => .ok [])).1 =
      .error (.attributeError "tuple" "strip") ∧
    multiNotFoundMsg ≠ noResultsMsg := by
  exact ⟨by rfl, by rfl, by decide⟩

/-- C4: when intent extraction returns its error marker, `process`
returns at once with the fixed apology string as content, the
corrections list empty and the task, sql and results fields unset, and
no semantic-index or tabular-store call is made in that run. -/
theorem process_intent_error_short_circuit (userQuery : String) (filters : Filters)
    (oracle : LLMOracle) (findC : String → Option String)
    (findM : String → Option String → Option String)
    (db : String → Except String (List Row))
    (h : (oracle.parseIntent userQuery).error.isSome = true) :
    process userQuery filters oracle findC findM db =
      (.ok ⟨[], none, none, none, .str apologyMsg⟩, []) := by
  simp only [process]
  rw [if_pos h]

/-- C4 witness: a concrete transport-error oracle. -/
theorem process_intent_error_short_circuit_witness :
    process "best phone" noFilters erroringOracle
      (fun _ => none) (fun _ _ => none) (fun _ => .ok []) =
      (.ok ⟨[], none, none, none, .str apologyMsg⟩, []) :=
  process_intent_error_short_circuit "best phone" noFilters erroringOracle
    (fun _ => none) (fun _ _ => none) (fun _ => .ok []) rfl

/-! ## Claim theorems: the SQL case-normalization pass -/

/-- The C10 counterexample text: a stray double quote directly before a
second comparison. -/
def sqlCexText : String := "\"Company Name\" = \"\"Model Name\" = \"x\""

/-- C10 counterexample. The pass is not idempotent: on
`"Company Name" = ""Model Name" = "x"` the first application rewrites
only the Model Name comparison, and the quoted segment it inserts
completes a fresh Company Name match (value `LOWER(`), which the second
application then rewrites. -/
theorem normalizeSqlCase_not_idempotent :
    normalizeSqlCase sqlCexText =
      "\"Company Name\" = \"LOWER(\"Model Name\") = LOWER(\"x\")" ∧
    normalizeSqlCase (normalizeSqlCase sqlCexText) ≠ normalizeSqlCase sqlCexText := by
  exact ⟨by decide, by decide⟩

/-- C10 (amended): the rewrite is not idempotent in general — a rewrite
can insert a quoted segment that completes a fresh match of an earlier
pattern when a stray double quote directly precedes a comparison. Both
patterns require a double-quoted column name, so on SQL texts containing
no double-quote character the pass changes nothing, and on those
applying it twice equals applying it once. -/
theorem normalizeSqlCase_id_on_no_dq (s : String) (h : ∀ c ∈ s.data, c ≠ '"') :
    normalizeSqlCase s = s ∧
    normalizeSqlCase (normalizeSqlCase s) = normalizeSqlCase s := by
  have h1 := normalizeSqlCase_id_of_no_dq h
  refine ⟨h1, ?_⟩
  rw [h1, h1]

/-- C10 amended-claim witness at a concrete single-quoted SQL text. -/
theorem normalizeSqlCase_id_on_no_dq_witness :
    normalizeSqlCase "SELECT * FROM phones WHERE price >= 100" =
      "SELECT * FROM phones WHERE price >= 100" ∧
    normalizeSqlCase (normalizeSqlCase "SELECT * FROM phones WHERE price >= 100") =
      normalizeSqlCase "SELECT * FROM phones WHERE price >= 100" :=
  normalizeSqlCase_id_on_no_dq "SELECT * FROM phones WHERE price >= 100" (by decide)

/-! ## Claim theorems: the Summarizer -/

/-- C9 counterexample. The claim says the marketplace links are built
by URL-encoding the string "COMPANY MODEL" (separated by one space) for
each serialized row. The code first strips the formatted string and
skips rows whose model name is falsy, so for a row with an empty
company the code encodes "x" where the claim's reading encodes " x"
(i.e. "%20x"), and a row with an empty model name produces no links
section at all. -/
theorem buyLinks_claim_counterexample :
    generateBuyLinks [⟨"", "x", 100⟩] ≠ claimedBuyLinks [⟨"", "x", 100⟩] ∧
    urlQuote (" " ++ "x") = "%20x" ∧
    urlQuote (pyStrip (" " ++ "x")) = "x" ∧
    generateBuyLinks [⟨"Apple", "", 500⟩] = buyHeader ++ buyFooter := by
  exact ⟨by decide, by decide, by decide, by decide⟩

/-- C9 (amended): the rows the Summarizer serializes to the oracle are
the input rows deduplicated by Model Name — each kept row is the first
occurrence of its model, models are pairwise distinct, and every input
model is represented — truncated to at most 4 entries; the narrative
returned is the oracle text followed by the buy-links section, which
appends, for each serialized row with a non-empty model name, the two
retailer URLs built by URL-encoding the whitespace-stripped string
"{company} {model}" (empty-model rows are skipped). -/
theorem summarize_serialized_rows_and_links (userQuery : String) (df : List Row)
    (post : String → List Row → Nat → PostResult) :
    ((dedupByModel df).take 4).length ≤ 4 ∧
    (((dedupByModel df).take 4).map Row.model).Nodup ∧
    (∀ r ∈ (dedupByModel df).take 4, df.find? (fun x => x.model == r.model) = some r) ∧
    (∀ r ∈ df, ∃ q ∈ dedupByModel df, q.model = r.model) ∧
    (∀ s, (summarize userQuery df post).1 = some s →
      ∃ t, post userQuery ((dedupByModel df).take 4) df.length = .okText t ∧
        s = t ++ generateBuyLinks ((dedupByModel df).take 4)) ∧
    (∀ rows : List Row, generateBuyLinks rows =
      buyHeader ++ String.join (rows.map buyLinkEntry) ++ buyFooter) := by
  refine ⟨?_, ?_, ?_, ?_, ?_, ?_⟩
  · rw [List.length_take]
    omega
  · have hsub : List.Sublist ((dedupByModel df).take 4) (dedupByModel df) :=
      List.take_sublist 4 (dedupByModel df)
    exact (dedupByModelGo_models_nodup df []).sublist (hsub.map Row.model)
  · intro r hr
    have hr' : r ∈ dedupByModel df :=
      (List.take_sublist 4 (dedupByModel df)).mem hr
    exact (dedupByModelGo_find? df [] r hr').2
  · intro r hr
    rcases dedupByModelGo_complete df [] r hr with hseen | hq
    · cases hseen
    · exact hq
  · intro s hs
    simp only [summarize] at hs
    cases hpost : post userQuery ((dedupByModel df).take 4) df.length with
    | err e => rw [hpost] at hs; cases hs
    | okMalformed => rw [hpost] at hs; cases hs
    | okText t =>
      rw [hpost] at hs
      simp only [Option.some.injEq] at hs
      exact ⟨t, rfl, hs.symm⟩
  · intro rows
    rw [generateBuyLinks, foldl_buyLinkEntry]

/-! ## Claim theorem: the retry policy -/

/-- C5: with the source's parameters (`max_retries=2`,
`retry_on_rate_limit=True`), the wrapper invokes the wrapped request at
most 3 times; a further invocation happens only after a 429 `HTTPError`
or a network-family `RequestException`; a retry that follows a 429
sleeps for the server-supplied Retry-After duration when the header is
present; a network-family retry sleeps the exponential-backoff delay;
and any other exception (other HTTP statuses, malformed responses)
stops the loop at once with an error record and no result. -/
theorem handleWithRetry_policy {α : Type} (calls : Nat → ReqOutcome α)
    (retryDelay backoffFactor : Nat) :
    (handleWithRetry calls 2 retryDelay backoffFactor true).numCalls ≤ 3 ∧
    (∀ k, k + 1 < (handleWithRetry calls 2 retryDelay backoffFactor true).numCalls →
      ∃ e, calls k = .exc e ∧ retryableExc e = true) ∧
    (∀ k resp m t, k + 1 < (handleWithRetry calls 2 retryDelay backoffFactor true).numCalls →
      calls k = .exc (.httpError (some resp) m) → resp.retryAfter = some t →
      (handleWithRetry calls 2 retryDelay backoffFactor true).sleeps[k]? = some t) ∧
    (∀ k e, k + 1 < (handleWithRetry calls 2 retryDelay backoffFactor true).numCalls →
      calls k = .exc e → networkFamilyExc e = true →
      (handleWithRetry calls 2 retryDelay backoffFactor true).sleeps[k]? =
        some (retryDelay * backoffFactor ^ k)) ∧
    (∀ k e, k < (handleWithRetry calls 2 retryDelay backoffFactor true).numCalls →
      calls k = .exc e → retryableExc e = false →
      (handleWithRetry calls 2 retryDelay backoffFactor true).numCalls = k + 1 ∧
      (handleWithRetry calls 2 retryDelay backoffFactor true).result = none ∧
      (handleWithRetry calls 2 retryDelay backoffFactor true).error.isSome = true) := by
  obtain ⟨ha, hb, hpre, hslen, hretryk, hhttpk, hnetk, hstopk⟩ :=
    handleWithRetryGo_spec calls 2 retryDelay backoffFactor true 3 0 [] none none rfl
      (by omega) rfl
  exact ⟨hb, fun k hk1 => hretryk k (Nat.zero_le k) hk1,
    fun k resp m t hk1 hke hra => by
      have := hhttpk k resp m (Nat.zero_le k) hk1 hke
      rw [hra] at this
      simpa using this,
    fun k e hk1 hke hn => hnetk k e (Nat.zero_le k) hk1 hke hn,
    fun k e hk hke hnr => hstopk k e (Nat.zero_le k) hk hke hnr⟩

/-! ## Claim theorem: the Semantic Matcher -/

/-- C6: `find_similar` returns the stored canonical name of the single
top match exactly when that match exists and its similarity score is
strictly greater than the threshold; an empty input, a failed or empty
embedding, an empty match list, or a top score not above the threshold
all yield `none`. The embedding itself is total, so no exception
reaches the caller. -/
theorem findSimilar_top_match (query : String) (typeFilter companyFilter : Option String)
    (threshold : ℚ) (embed : String → Option (List ℚ))
    (indexQuery : List ℚ → Option VCFilter → List VCMatch) (name : String) :
    findSimilar query typeFilter companyFilter threshold embed indexQuery = some name ↔
      query ≠ "" ∧ ∃ emb, embed query = some emb ∧ emb ≠ [] ∧
        ∃ top rest, indexQuery emb (vcQueryFilter typeFilter companyFilter) = top :: rest ∧
          threshold < top.score ∧ top.originalName = some name := by
  unfold findSimilar
  by_cases hq : query == ""
  · have hqe : query = "" := by simpa using hq
    simp [hq, hqe]
  · have hne : query ≠ "" := by simpa using hq
    cases hemb : embed query with
    | none => simp [hq, hne, hemb]
    | some emb =>
      by_cases he : emb.isEmpty
      · have hnil : emb = [] := by simpa using he
        simp [hq, he, hne, hemb, hnil]
      · have hnnil : emb ≠ [] := by simpa using he
        cases hidx : indexQuery emb (vcQueryFilter typeFilter companyFilter) with
        | nil => simp [hq, he, hne, hemb, hnnil, hidx]
        | cons top rest =>
          by_cases hs : threshold < top.score
          · simp [hq, he, hne, hemb, hnnil, hidx, hs]
          · simp [hq, he, hne, hemb, hnnil, hidx, hs]

/-- C7: merging the same sidebar filter set into an intent twice
produces exactly the constraint list of merging it once — the second
merge replaces each previously merged sidebar constraint with an equal
one and appends nothing. -/
theorem mergeFilters_idempotent (cs : List Constraint) (f : Filters) :
    mergeFilters (mergeFilters cs f) f = mergeFilters cs f := by
  simp only [mergeFilters]
  by_cases he : (filterConstraints f).isEmpty
  · rw [if_pos he, if_pos he]
  · rw [if_neg he, if_neg he]
    exact foldl_of_settled _ _ fun fc hfc =>
      firstWithKey_foldl_settled _ cs hfc (filterConstraints_keys_nodup f)

end MobileShop
